import Mathlib

/-!
# Verification of the cursor-pagination query builder (`getItems`)

Shallow embedding of the `getItems` controller of the items REST API
(`controllers/itemController.js`) together with the storage query it
compiles, and proofs of the specified properties.

Modelling conventions:
* JavaScript runtime values occurring in the handler are modelled by `JVal`
  (numbers as `Int`: the claims do not depend on fractional or float
  behaviour; `Date` objects as integer timestamps).
* Query-string parameters arrive as raw strings (Express semantics), so the
  JS truthiness guards (`if (minPrice) ...`) are modelled on `Option String`
  with the empty string falsy.
* The MongoDB query object built by the handler is modelled by
  `QueryFilter`, one slot per key the source assigns (`category`, `status`,
  `price`, `$or`, `createdAt`); assigning a key a second time overwrites
  it, exactly as for a JS object key.
* `Item.find(filter).sort(sort).limit(n).lean()` is modelled as: filter the
  dataset, sort it with a comparison realizing the compiled sort
  specification (BSON type-bracket order between values of distinct types),
  take `n`.  Mongo leaves tie order unspecified; the model determinizes
  ties with a stable merge sort, and every theorem that depends on order
  carries hypotheses under which the compiled order is total on the data,
  so the determinization is irrelevant there.
* `Date#toJSON` is modelled as the decimal string of the timestamp and
  `new Date(string)` as decimal-string parsing (`none` = Invalid Date);
  `new Date(number)` is the timestamp, `new Date(null)` is `0`,
  `new Date(undefined)` is Invalid Date, as in JS.
* `JSON.parse` / `JSON.stringify` are modelled by an executable
  parser/printer covering the fragment the handler exchanges: objects,
  integers, escape-free strings, `null`, booleans, arrays.
-/

/-- JavaScript runtime values flowing through the handler. -/
inductive JVal where
  | jundef : JVal
  | jnull  : JVal
  | jnum   : Int → JVal
  | jstr   : String → JVal
  | jdate  : Int → JVal
  | jbool  : Bool → JVal
  | jobj   : List (String × JVal) → JVal
  | jarr   : List JVal → JVal
deriving Repr

/-- Equality test between the values the handler actually compares
(MongoDB equality between a stored scalar and a cursor-payload scalar).
Objects and arrays never occur on the stored side of such a comparison in
this handler, so their case is stubbed to `false`. -/
def jvalEq (a b : JVal) : Bool :=
  match a, b with
  | .jundef, .jundef => true
  | .jnull, .jnull => true
  | .jnum x, .jnum y => x == y
  | .jstr x, .jstr y => x == y
  | .jdate x, .jdate y => x == y
  | .jbool x, .jbool y => x == y
  | _, _ => false

/-- An item document as stored (fields of the `Item` mongoose schema).
`id` stands for the document identity (`_id`); it is never sorted or
filtered on by the claims. -/
structure Item where
  id : Nat
  name : String
  description : String := ""
  category : String
  price : Int
  stock : Int := 0
  status : String := "active"
  createdAt : Int
  updatedAt : Int := 0
deriving Repr, DecidableEq

/-- Dynamic field access `item[f]` on a stored document: known schema
fields yield their (BSON-typed) value, anything else is `undefined`. -/
def Item.get (x : Item) (f : String) : JVal :=
  if f = "name" then .jstr x.name
  else if f = "description" then .jstr x.description
  else if f = "category" then .jstr x.category
  else if f = "price" then .jnum x.price
  else if f = "stock" then .jnum x.stock
  else if f = "status" then .jstr x.status
  else if f = "createdAt" then .jdate x.createdAt
  else if f = "updatedAt" then .jdate x.updatedAt
  else (.jundef)

/-- The incoming request's query parameters, after destructuring with the
source's defaults (`limit = 10`, `sortBy = 'createdAt'`,
`sortOrder = 'desc'`).  String-valued parameters are kept raw
(`none` = absent); `limit` is kept as the already-parsed integer
(`parseInt(limit, 10)`), since no claim depends on non-numeric limits. -/
structure Query where
  cursor : Option String := none
  limit : Int := 10
  sortBy : String := "createdAt"
  sortOrder : String := "desc"
  category : Option String := none
  status : Option String := none
  minPrice : Option String := none
  maxPrice : Option String := none
  search : Option String := none
deriving Repr, DecidableEq

/-- JS truthiness of an (optional) query-string parameter: absent and the
empty string are falsy, every other string is truthy. -/
def truthy : Option String → Bool
  | none => false
  | some s => s ≠ ""

/-- `Number(s)` on the integer fragment: `none` models `NaN`
(defined below as full-string decimal parsing; forward-declared here as
the structural parser is introduced with the codec). -/
def jsNumberChars : List Char → Option Int :=
  fun cs =>
    match cs with
    | [] => none
    | c :: rest =>
        if c = '-' then
          match digitsVal rest with
          | some n => some (-(n : Int))
          | none => none
        else
          match digitsVal (c :: rest) with
          | some n => some ((n : Int))
          | none => none
where
  /-- value of a nonempty all-digit string -/
  digitsVal (l : List Char) : Option Nat :=
    match l with
    | [] => none
    | _ =>
      if l.all Char.isDigit then
        some (l.foldl (fun acc c => acc * 10 + (c.toNat - 48)) 0)
      else none

/-- `Number(s)` on the integer fragment: `none` models `NaN`. -/
def jsNumber (s : String) : Option Int := jsNumberChars s.data

/-- The single `$or` slot of the query object.  The source assigns `$or`
in two places (the `search` filter and the cursor translation); a second
assignment overwrites the first, exactly as for a JS object key. -/
inductive OrClause where
  /-- `[{name: {$regex: s, $options:'i'}}, {description: {$regex: s, $options:'i'}}]` -/
  | search (s : String)
  /-- `[{field: {$lt/$gt: v}}, {field: v, createdAt: {$lt/$gt: c}}]`;
  `isLt = true` for `$lt` (descending direction), `c = none` models an
  Invalid Date. -/
  | cursorCmp (field : String) (isLt : Bool) (v : JVal) (c : Option Int)
deriving Repr

/-- The MongoDB filter object built by the handler: one slot per key the
source can assign. -/
structure QueryFilter where
  category : Option String := none
  status : Option String := none
  /-- `price: {$gte: …, $lte: …}`; inner `none` models a `NaN` bound. -/
  price : Option (Option (Option Int) × Option (Option Int)) := none
  orClause : Option OrClause := none
  /-- `createdAt: {$lt/$gt: c}` from the cursor branch
  (`true` = `$lt`, `c = none` = Invalid Date). -/
  createdAtCond : Option (Bool × Option Int) := none
deriving Repr

/-- Lines 22–43 of the controller: build the filter object from the
query-string parameters (all guards are JS truthiness tests on the raw
strings). -/
def buildFilter (q : Query) : QueryFilter :=
  let f : QueryFilter := {}
  let f := if truthy q.category then { f with category := q.category } else f
  let f := if truthy q.status then { f with status := q.status } else f
  let g := if truthy q.minPrice then some (jsNumber ((q.minPrice).getD "")) else none
  let l := if truthy q.maxPrice then some (jsNumber ((q.maxPrice).getD "")) else none
  let f :=
    if truthy q.minPrice || truthy q.maxPrice then { f with price := some (g, l) }
    else f
  let f := if truthy q.search then { f with orClause := some (.search ((q.search).getD "")) } else f
  f

/-- Case-insensitive substring test: models `{$regex: pat, $options: 'i'}`
for the plain-text patterns the spec considers. -/
def containsCI (pat s : String) : Bool :=
  decide ((pat.data.map Char.toLower) <:+: (s.data.map Char.toLower))

/-- BSON type bracket of a value (undefined/null below numbers, numbers
below strings, booleans below dates). -/
def JVal.rank : JVal → Nat
  | .jundef => 0
  | .jnull => 1
  | .jnum _ => 2
  | .jstr _ => 3
  | .jobj _ => 4
  | .jarr _ => 5
  | .jbool _ => 6
  | .jdate _ => 7

/-- Three-way comparison on `Int` by `<`. -/
def cmpInt (a b : Int) : Ordering :=
  if a < b then .lt else if b < a then .gt else .eq

/-- Three-way comparison on `String` by the lexicographic `<`. -/
def cmpStr (a b : String) : Ordering :=
  if a < b then .lt else if b < a then .gt else .eq

/-- BSON value comparison, as used by MongoDB for `$lt`/`$gt` and for
sorting: distinct type brackets compare by bracket; values of the same
scalar type compare by value.  Objects and arrays never occur as sort keys
or cursor bounds in this handler, so their intra-type comparison is
irrelevant and stubbed to `eq`. -/
def bsonCompare (a b : JVal) : Ordering :=
  if a.rank < b.rank then .lt
  else if b.rank < a.rank then .gt
  else
    match a, b with
    | .jnum x, .jnum y => cmpInt x y
    | .jstr x, .jstr y => cmpStr x y
    | .jdate x, .jdate y => cmpInt x y
    | .jbool x, .jbool y => if x = y then .eq else if x = false then .lt else .gt
    | _, _ => .eq

/-- `a $lt b` under BSON comparison. -/
def bsonLt (a b : JVal) : Bool := bsonCompare a b == .lt

/-- One bound of the `price: {$gte: …, $lte: …}` condition
(`none` = bound absent, `some none` = NaN bound, which matches no stored
number). -/
def matchesGte : Option (Option Int) → Int → Bool
  | none, _ => true
  | some none, _ => false
  | some (some n), p => n ≤ p

def matchesLte : Option (Option Int) → Int → Bool
  | none, _ => true
  | some none, _ => false
  | some (some n), p => p ≤ n

/-- Evaluation of the `$or` slot on a document. -/
def OrClause.matches (c : OrClause) (x : Item) : Bool :=
  match c with
  | .search s => containsCI s x.name || containsCI s x.description
  | .cursorCmp field isLt v c =>
      (if isLt then bsonLt (x.get field) v else bsonLt v (x.get field))
      || (jvalEq (x.get field) v &&
          (match c with
           | none => false
           | some t => if isLt then decide (x.createdAt < t) else decide (t < x.createdAt)))

/-- Evaluation of an (optional) `createdAt: {$lt/$gt: c}` condition on a
document (an Invalid Date bound matches nothing in this model). -/
def condMatches : Option (Bool × Option Int) → Item → Bool
  | none, _ => true
  | some (_, none), _ => false
  | some (isLt, some t), x =>
      if isLt then decide (x.createdAt < t) else decide (t < x.createdAt)

/-- Evaluation of the whole filter object on a document (top-level keys of
a MongoDB query combine by logical AND). -/
def QueryFilter.matches (f : QueryFilter) (x : Item) : Bool :=
  (match f.category with | none => true | some c => x.category == c)
  && (match f.status with | none => true | some s => x.status == s)
  && (match f.price with
      | none => true
      | some (g, l) => matchesGte g x.price && matchesLte l x.price)
  && (match f.orClause with | none => true | some c => c.matches x)
  && condMatches f.createdAtCond x

/-- The compiled sort: primary key `sortBy` in the requested direction,
and — whenever `sortBy ≠ 'createdAt'` — the secondary key
`createdAt: -1` the source always appends (lines 96–102).
`sortLe x y` holds when `x` may precede `y`. -/
def sortLe (sb so : String) (x y : Item) : Bool :=
  let p := if so = "desc" then bsonCompare (y.get sb) (x.get sb)
           else bsonCompare (x.get sb) (y.get sb)
  match p with
  | .lt => true
  | .gt => false
  | .eq => if sb = "createdAt" then true else decide (y.createdAt ≤ x.createdAt)

/-- Insert into a sorted list, keeping it sorted w.r.t. `le`. -/
def insertSorted (le : Item → Item → Bool) (x : Item) : List Item → List Item
  | [] => [x]
  | y :: ys => if le x y then x :: y :: ys else y :: insertSorted le x ys

/-- Insertion sort.  It realizes the storage engine's sort: any order
consistent with the compiled sort specification (and the unique one when
the specification is total on the data). -/
def sortWith (le : Item → Item → Bool) : List Item → List Item
  | [] => []
  | x :: xs => insertSorted le x (sortWith le xs)

/-- `Item.find(filter).sort(sort).limit(n).lean()`: filter, order by the
compiled sort, return at most `n` rows. -/
def runQuery (f : QueryFilter) (sb so : String) (n : Nat) (ds : List Item) : List Item :=
  (sortWith (sortLe sb so) (ds.filter fun x => f.matches x)).take n

/-! ## Decimal rendering and parsing (JSON integer fragment, Date strings) -/

def digitChar (n : Nat) : Char := Char.ofNat (48 + n)

/-- Decimal digits, most significant first (`fuel` structural so that the
definition reduces in the kernel; `natDigits` supplies ample fuel). -/
def natDigitsGo : Nat → Nat → List Char
  | 0, _ => []
  | fuel+1, n =>
      if n < 10 then [digitChar n] else natDigitsGo fuel (n / 10) ++ [digitChar (n % 10)]

/-- Decimal digits of a natural number, most significant first. -/
def natDigits (n : Nat) : List Char := natDigitsGo (n + 1) n

theorem natDigitsGo_congr : ∀ f1 f2 n : Nat, n < f1 → n < f2 →
    natDigitsGo f1 n = natDigitsGo f2 n
  | f1+1, f2+1, n, h1, h2 => by
      rw [natDigitsGo, natDigitsGo]
      split
      · rfl
      · rw [natDigitsGo_congr f1 f2 (n / 10) (by omega) (by omega)]

/-- The intended recursive unfolding of `natDigits`. -/
theorem natDigits_eq (n : Nat) : natDigits n =
    if n < 10 then [digitChar n] else natDigits (n / 10) ++ [digitChar (n % 10)] := by
  rw [natDigits, natDigitsGo]
  split
  · rfl
  · rw [natDigitsGo_congr n (n / 10 + 1) (n / 10) (by omega) (by omega)]
    rfl

/-- Decimal rendering of an integer (as emitted by `JSON.stringify` for the
integer fragment, and as this model's `Date#toJSON` body). -/
def intRepr (i : Int) : List Char :=
  if i < 0 then '-' :: natDigits (-i).toNat else natDigits i.toNat

/-- Consume leading decimal digits, accumulating their value. -/
def parseNatAux : List Char → Nat → Nat × List Char
  | c :: cs, acc => if c.isDigit then parseNatAux cs (acc * 10 + (c.toNat - 48)) else (acc, c :: cs)
  | [], acc => (acc, [])

/-- A number literal may not continue with a fraction or exponent in the
fragment this model covers. -/
def badNumTail : List Char → Bool
  | c :: _ => c = '.' || c = 'e' || c = 'E'
  | [] => false

/-- Parse a JSON number (integer fragment). -/
def parseNumber (cs : List Char) : Option (JVal × List Char) :=
  match cs with
  | [] => none
  | c :: rest =>
      if c = '-' then
        match rest with
        | [] => none
        | c2 :: _ =>
            if c2.isDigit then
              let p := parseNatAux rest 0
              if badNumTail p.2 then none else some (.jnum (-(p.1 : Int)), p.2)
            else none
      else
        if c.isDigit then
          let p := parseNatAux (c :: rest) 0
          if badNumTail p.2 then none else some (.jnum (p.1 : Int), p.2)
        else none

/-- Full-string decimal integer parse; models `new Date(s)` on this
model's date strings (`none` = Invalid Date). -/
def parseIntFull (s : String) : Option Int :=
  match parseNumber s.data with
  | some (.jnum n, []) => some n
  | _ => none

/-! ## JSON parser (fragment: objects, arrays, escape-free strings,
integers, literals), modelling `JSON.parse` on the values the handler
exchanges.  Duplicate object keys keep the last value, as in JS. -/

/-- Read the remainder of a string literal (opening quote already
consumed); escapes are outside the modelled fragment. -/
def parseStrAux : List Char → List Char → Option (String × List Char)
  | [], _ => none
  | c :: cs, acc =>
      if c = '"' then some (String.mk acc.reverse, cs)
      else if c = '\\' then none
      else parseStrAux cs (c :: acc)

def isJsonWs (c : Char) : Bool := c = ' ' || c = '\t' || c = '\n' || c = '\r'

def skipWs : List Char → List Char
  | c :: cs => if isJsonWs c then skipWs cs else c :: cs
  | [] => []

/-- Add a key/value to an object under construction; a repeated key
overwrites in place (JS object semantics). -/
def insertField (fs : List (String × JVal)) (k : String) (v : JVal) : List (String × JVal) :=
  match fs with
  | [] => [(k, v)]
  | (k', v') :: rest => if k' = k then (k', v) :: rest else (k', v') :: insertField rest k v

mutual

def parseVal : Nat → List Char → Option (JVal × List Char)
  | 0, _ => none
  | fuel+1, cs =>
    match skipWs cs with
    | [] => none
    | c :: rest =>
      if c = '{' then
        match skipWs rest with
        | c2 :: r2 =>
            if c2 = '}' then some (.jobj [], r2) else parseMembers fuel rest []
        | [] => parseMembers fuel rest []
      else if c = '[' then
        match skipWs rest with
        | c2 :: r2 =>
            if c2 = ']' then some (.jarr [], r2) else parseElems fuel rest []
        | [] => parseElems fuel rest []
      else if c = '"' then
        match parseStrAux rest [] with
        | some (s, r) => some (.jstr s, r)
        | none => none
      else if c = 'n' then
        match rest with
        | 'u' :: 'l' :: 'l' :: r => some (.jnull, r)
        | _ => none
      else if c = 't' then
        match rest with
        | 'r' :: 'u' :: 'e' :: r => some (.jbool true, r)
        | _ => none
      else if c = 'f' then
        match rest with
        | 'a' :: 'l' :: 's' :: 'e' :: r => some (.jbool false, r)
        | _ => none
      else parseNumber (c :: rest)

def parseMembers : Nat → List Char → List (String × JVal) → Option (JVal × List Char)
  | 0, _, _ => none
  | fuel+1, cs, acc =>
    match skipWs cs with
    | [] => none
    | c :: rest =>
      if c = '"' then
        match parseStrAux rest [] with
        | none => none
        | some (k, r1) =>
          match skipWs r1 with
          | [] => none
          | c2 :: r2 =>
            if c2 = ':' then
              match parseVal fuel r2 with
              | none => none
              | some (v, r3) =>
                match skipWs r3 with
                | [] => none
                | c3 :: r4 =>
                  if c3 = ',' then parseMembers fuel r4 (insertField acc k v)
                  else if c3 = '}' then some (.jobj (insertField acc k v), r4)
                  else none
            else none
      else none

def parseElems : Nat → List Char → List JVal → Option (JVal × List Char)
  | 0, _, _ => none
  | fuel+1, cs, acc =>
    match parseVal fuel cs with
    | none => none
    | some (v, r) =>
      match skipWs r with
      | [] => none
      | c :: r2 =>
        if c = ',' then parseElems fuel r2 (acc ++ [v])
        else if c = ']' then some (.jarr (acc ++ [v]), r2)
        else none

end

/-- `JSON.parse` on a character list: parse one value, allow surrounding
whitespace, reject trailing input. -/
def jsonParse (cs : List Char) : Option JVal :=
  match parseVal (cs.length + 2) cs with
  | some (v, rest) => if (skipWs rest).isEmpty then some v else none
  | none => none

/-! ## JSON printing of the cursor payload (`JSON.stringify` on the flat
object the handler builds) -/

def JVal.isUndef : JVal → Bool
  | .jundef => true
  | _ => false

/-- Serialization of a scalar payload value.  A `Date` serializes to a
quoted string (its `toJSON` form, a decimal timestamp in this model).
Objects/arrays never occur in the handler's payloads. -/
def scalarChars : JVal → List Char
  | .jnull => ['n', 'u', 'l', 'l']
  | .jbool true => ['t', 'r', 'u', 'e']
  | .jbool false => ['f', 'a', 'l', 's', 'e']
  | .jnum n => intRepr n
  | .jstr s => '"' :: s.data ++ ['"']
  | .jdate t => '"' :: intRepr t ++ ['"']
  | _ => []

def fieldChars (k : String) (v : JVal) : List Char :=
  '"' :: k.data ++ '"' :: ':' :: scalarChars v

def membersChars : List (String × JVal) → List Char
  | [] => []
  | [(k, v)] => fieldChars k v
  | (k, v) :: rest => fieldChars k v ++ ',' :: membersChars rest

/-- `JSON.stringify` of a flat object: fields in insertion order,
`undefined`-valued fields dropped, no added whitespace. -/
def stringifyFlat (fs : List (String × JVal)) : List Char :=
  '{' :: membersChars (fs.filter fun kv => !kv.2.isUndef) ++ ['}']

/-! ## Base64 (`Buffer.from(s).toString('base64')` and
`Buffer.from(tok, 'base64').toString('utf-8')` on the ASCII fragment) -/

def b64Alphabet : List Char :=
  "ABCDEFGHIJKLMNOPQRSTUVWXYZabcdefghijklmnopqrstuvwxyz0123456789+/".data

def b64Char (n : Nat) : Char := b64Alphabet.getD n 'A'

/-- The 6-bit value of an alphabet character; `none` for padding and any
character outside the alphabet (Node's decoder skips those). -/
def b64Val (c : Char) : Option Nat := b64Alphabet.findIdx? (· = c)

/-- Standard base64 encoding of a byte sequence, with padding. -/
def b64encode : List Nat → List Char
  | b0 :: b1 :: b2 :: rest =>
      b64Char (b0 / 4) :: b64Char (b0 % 4 * 16 + b1 / 16) ::
      b64Char (b1 % 16 * 4 + b2 / 64) :: b64Char (b2 % 64) :: b64encode rest
  | [b0, b1] => [b64Char (b0 / 4), b64Char (b0 % 4 * 16 + b1 / 16), b64Char (b1 % 16 * 4), '=']
  | [b0] => [b64Char (b0 / 4), b64Char (b0 % 4 * 16), '=', '=']
  | [] => []

/-- Reassemble bytes from a stream of 6-bit values (a trailing single
value contributes no byte, as in Node). -/
def b64decodeVals : List Nat → List Nat
  | v0 :: v1 :: v2 :: v3 :: rest =>
      (v0 * 4 + v1 / 16) :: (v1 % 16 * 16 + v2 / 4) :: (v2 % 4 * 64 + v3) :: b64decodeVals rest
  | [v0, v1, v2] => [v0 * 4 + v1 / 16, v1 % 16 * 16 + v2 / 4]
  | [v0, v1] => [v0 * 4 + v1 / 16]
  | _ => []

/-- Node's forgiving base64 decode: characters outside the alphabet
(including padding) are skipped, then 6-bit groups are reassembled. -/
def b64decode (cs : List Char) : List Nat := b64decodeVals (cs.filterMap b64Val)

/-! ## The cursor codec (source lines 117–123 encode, 50–51 decode) -/

/-- Lines 119–123: `Buffer.from(JSON.stringify(cursorData)).toString('base64')`.
Bytes are character codes (the payloads proved about are ASCII). -/
def encodeCursorStr (p : List (String × JVal)) : String :=
  String.mk (b64encode ((stringifyFlat p).map Char.toNat))

/-- Lines 50–51: `JSON.parse(Buffer.from(cursor, 'base64').toString('utf-8'))`;
`none` means `JSON.parse` threw. -/
def decodeCursorTok (tok : String) : Option JVal :=
  jsonParse ((b64decode tok.data).map Char.ofNat)

/-- The `cursorData` object literal of lines 119–122:
`{[sortBy]: lastItem[sortBy], createdAt: lastItem.createdAt}` (a repeated
key — when `sortBy = 'createdAt'` — collapses, last value winning). -/
def mkCursorPayload (sb : String) (last : Item) : List (String × JVal) :=
  insertField (insertField [] sb (last.get sb)) "createdAt" (.jdate last.createdAt)

/-! ## The cursor-to-predicate translation (source lines 47–94) -/

/-- JS property access `cv[k]` inside the `try` block: throws (`error`)
when the receiver is `null`/`undefined`, yields `undefined` for a missing
key or a non-object receiver. -/
def getPropE : JVal → String → Except Unit JVal
  | .jnull, _ => .error ()
  | .jundef, _ => .error ()
  | .jobj fs, k => .ok ((fs.lookup k).getD .jundef)
  | _, _ => .ok (.jundef)

/-- `new Date(x)`: a number is a timestamp, a string parses (this model's
date-string form; `none` = Invalid Date), `null` is the epoch,
everything else is Invalid Date here. -/
def jsDate : JVal → Option Int
  | .jnum n => some n
  | .jstr s => parseIntFull s
  | .jnull => some 0
  | _ => none

/-- Lines 54–59: the `sortBy === 'createdAt'` branch. -/
def createdAtCursorBranch (so : String) (cv : JVal) (f : QueryFilter) :
    Except Unit QueryFilter := do
  let c ← getPropE cv "createdAt"
  .ok { f with createdAtCond := some (so == "desc", jsDate c) }

/-- Lines 60–77: the dedicated `sortBy === 'price'` branch. -/
def priceCursorBranch (so : String) (cv : JVal) (f : QueryFilter) :
    Except Unit QueryFilter := do
  let v ← getPropE cv "price"
  let c ← getPropE cv "createdAt"
  .ok { f with orClause := some (.cursorCmp "price" (so == "desc") v (jsDate c)) }

/-- Lines 78–87: the generic branch with `createdAt` as tiebreaker. -/
def genericCursorBranch (sb so : String) (cv : JVal) (f : QueryFilter) :
    Except Unit QueryFilter := do
  let v ← getPropE cv sb
  let c ← getPropE cv "createdAt"
  .ok { f with orClause := some (.cursorCmp sb (so == "desc") v (jsDate c)) }

/-- The whole `try { … } catch` of lines 47–94 for a truthy cursor:
decode, then dispatch on `sortBy`; `error` is the caught path that
answers HTTP 400 "Invalid cursor format". -/
def applyCursor (tok : String) (sb so : String) (f : QueryFilter) :
    Except Unit QueryFilter :=
  match decodeCursorTok tok with
  | none => .error ()
  | some cv =>
      if sb == "createdAt" then createdAtCursorBranch so cv f
      else if sb == "price" then priceCursorBranch so cv f
      else genericCursorBranch sb so cv f

/-! ## The full handler -/

/-- The handler's observable outcome: a 200 page response, or the 400
"Invalid cursor format" response. -/
inductive Resp where
  | page (items : List Item) (hasMore : Bool) (nextCursor : Option String)
      (limit : Int) (count : Nat)
  | invalidCursor
deriving Repr, DecidableEq

/-- The `getItems` controller over a dataset `ds` (the document
collection): build the filter, apply the cursor, run the over-fetch query,
truncate, and produce the next cursor. -/
def getItems (ds : List Item) (q : Query) : Resp :=
  let f := buildFilter q
  let fE : Except Unit QueryFilter :=
    match q.cursor with
    | some tok => if tok ≠ "" then applyCursor tok q.sortBy q.sortOrder f else .ok f
    | none => .ok f
  match fE with
  | .error _ => .invalidCursor
  | .ok f =>
    let limitNum := q.limit
    let items := runQuery f q.sortBy q.sortOrder (limitNum + 1).toNat ds
    let hasMore : Bool := decide ((items.length : Int) > limitNum)
    let resultItems := if hasMore then items.take limitNum.toNat else items
    let nextCursor : Option String :=
      if hasMore && decide (resultItems.length > 0) then
        match resultItems.getLast? with
        | some last => some (encodeCursorStr (mkCursorPayload q.sortBy last))
        | none => none
      else none
    .page resultItems hasMore nextCursor limitNum resultItems.length

/-- Repeatedly call `getItems`, chaining each response's `nextCursor`
into the next request, concatenating the returned pages. -/
def chainPages (ds : List Item) (q : Query) : Nat → Option String → List Item
  | 0, _ => []
  | fuel+1, cur =>
    match getItems ds { q with cursor := cur } with
    | .page items _ (some nc) _ _ => items ++ chainPages ds q fuel (some nc)
    | .page items _ none _ _ => items
    | .invalidCursor => []

/-! ## Codec correctness: base64 layer -/

theorem b64Val_b64Char : ∀ v : Nat, v < 64 → b64Val (b64Char v) = some v := by decide

theorem b64Val_pad : b64Val '=' = none := by decide

/-- Decoding inverts encoding on byte sequences. -/
theorem b64_roundtrip : ∀ bs : List Nat, (∀ b ∈ bs, b < 256) →
    b64decode (b64encode bs) = bs
  | b0 :: b1 :: b2 :: rest, h => by
      have h0 : b0 < 256 := h b0 (by simp)
      have h1 : b1 < 256 := h b1 (by simp)
      have h2 : b2 < 256 := h b2 (by simp)
      have ih := b64_roundtrip rest (fun b hb => h b (by simp [hb]))
      simp only [b64encode, b64decode, List.filterMap_cons,
        b64Val_b64Char _ (by omega : b0 / 4 < 64),
        b64Val_b64Char _ (by omega : b0 % 4 * 16 + b1 / 16 < 64),
        b64Val_b64Char _ (by omega : b1 % 16 * 4 + b2 / 64 < 64),
        b64Val_b64Char _ (by omega : b2 % 64 < 64)]
      simp only [b64decodeVals, List.cons.injEq]
      refine ⟨by omega, by omega, by omega, ?_⟩
      simpa [b64decode] using ih
  | [b0, b1], h => by
      have h0 : b0 < 256 := h b0 (by simp)
      have h1 : b1 < 256 := h b1 (by simp)
      simp only [b64encode, b64decode, List.filterMap_cons,
        b64Val_b64Char _ (by omega : b0 / 4 < 64),
        b64Val_b64Char _ (by omega : b0 % 4 * 16 + b1 / 16 < 64),
        b64Val_b64Char _ (by omega : b1 % 16 * 4 < 64), b64Val_pad]
      simp only [b64decodeVals, List.filterMap_nil, List.cons.injEq]
      exact ⟨by omega, by omega, trivial⟩
  | [b0], h => by
      have h0 : b0 < 256 := h b0 (by simp)
      simp only [b64encode, b64decode, List.filterMap_cons,
        b64Val_b64Char _ (by omega : b0 / 4 < 64),
        b64Val_b64Char _ (by omega : b0 % 4 * 16 < 64), b64Val_pad]
      simp only [b64decodeVals, List.filterMap_nil, List.cons.injEq]
      exact ⟨by omega, trivial⟩
  | [], _ => rfl

/-! ## Codec correctness: decimal layer -/

theorem digitChar_props : ∀ d : Nat, d < 10 →
    (digitChar d).isDigit = true ∧ (digitChar d).toNat - 48 = d ∧
    isJsonWs (digitChar d) = false ∧ digitChar d ≠ '"' ∧ digitChar d ≠ '\\' ∧
    (digitChar d).toNat < 128 ∧ digitChar d ≠ '-' ∧ digitChar d ≠ '.' ∧
    digitChar d ≠ 'e' ∧ digitChar d ≠ 'E' := by decide

theorem natDigits_ne_nil (n : Nat) : natDigits n ≠ [] := by
  rw [natDigits_eq]
  split
  · simp
  · simp

theorem natDigits_mem_digit (n : Nat) : ∀ c ∈ natDigits n, c.isDigit = true := by
  induction n using Nat.strong_induction_on with
  | _ n ih =>
    rw [natDigits_eq]
    split
    next h =>
      intro c hc
      simp only [List.mem_singleton] at hc
      subst hc
      exact (digitChar_props n h).1
    next h =>
      intro c hc
      rw [List.mem_append] at hc
      rcases hc with hc | hc
      · exact ih (n / 10) (Nat.div_lt_self (by omega) (by omega)) c hc
      · simp only [List.mem_singleton] at hc
        subst hc
        exact (digitChar_props (n % 10) (by omega)).1

theorem parseNatAux_natDigits : ∀ n : Nat, ∀ rest acc,
    parseNatAux (natDigits n ++ rest) acc =
      parseNatAux rest (acc * 10 ^ (natDigits n).length + n) := by
  intro n
  induction n using Nat.strong_induction_on with
  | _ n ih =>
    intro rest acc
    rw [natDigits_eq]
    split
    next h =>
      have hd := digitChar_props n h
      simp only [List.cons_append, List.nil_append, parseNatAux, hd.1, if_true,
        List.length_singleton]
      congr 1
      have : (digitChar n).toNat - 48 = n := hd.2.1
      simp [pow_one]
      omega
    · have hrec : n / 10 < n := Nat.div_lt_self (by omega) (by omega)
      have hd := digitChar_props (n % 10) (by omega)
      rw [List.append_assoc, ih (n / 10) hrec, List.cons_append, List.nil_append]
      simp only [parseNatAux, hd.1, if_true, List.length_append, List.length_singleton]
      congr 1
      have hval : (digitChar (n % 10)).toNat - 48 = n % 10 := hd.2.1
      have hpow : (10 : Nat) ^ ((natDigits (n / 10)).length + 1) =
          10 ^ (natDigits (n / 10)).length * 10 := by ring
      rw [hpow, ← Nat.mul_assoc]
      omega

/-- A position where a number literal may stop: end of input or a
character that neither extends the integer nor opens a fraction or
exponent. -/
def numStop (cs : List Char) : Bool :=
  match cs with
  | [] => true
  | c :: _ => !c.isDigit && c ≠ '.' && c ≠ 'e' && c ≠ 'E'

theorem parseNatAux_full (n : Nat) (rest : List Char) (h : numStop rest = true) :
    parseNatAux (natDigits n ++ rest) 0 = (n, rest) := by
  rw [parseNatAux_natDigits]
  match rest, h with
  | [], _ => simp [parseNatAux]
  | c :: cs, h =>
    simp only [numStop, Bool.and_eq_true, Bool.not_eq_true'] at h
    simp [parseNatAux, h.1.1.1]

theorem natDigits_mem (n : Nat) : ∀ c ∈ natDigits n, ∃ d, d < 10 ∧ c = digitChar d := by
  induction n using Nat.strong_induction_on with
  | _ n ih =>
    rw [natDigits_eq]
    split
    next h =>
      intro c hc
      simp only [List.mem_singleton] at hc
      exact ⟨n, h, hc⟩
    next h =>
      intro c hc
      rw [List.mem_append] at hc
      rcases hc with hc | hc
      · exact ih (n / 10) (Nat.div_lt_self (by omega) (by omega)) c hc
      · simp only [List.mem_singleton] at hc
        exact ⟨n % 10, by omega, hc⟩

theorem badNumTail_of_numStop (rest : List Char) (h : numStop rest = true) :
    badNumTail rest = false := by
  match rest, h with
  | [], _ => rfl
  | c :: cs, h =>
    simp only [numStop, Bool.and_eq_true, Bool.not_eq_true', decide_eq_true_eq] at h
    simp [badNumTail, h.1.1.2, h.1.2, h.2]

theorem parseNumber_natDigits (n : Nat) (rest : List Char) (h : numStop rest = true) :
    parseNumber (natDigits n ++ rest) = some (.jnum (n : Int), rest) := by
  obtain ⟨d, ds, hds⟩ : ∃ d ds, natDigits n = d :: ds := by
    cases hnd : natDigits n with
    | nil => exact absurd hnd (natDigits_ne_nil n)
    | cons d ds => exact ⟨d, ds, rfl⟩
  have hdig : d.isDigit = true := natDigits_mem_digit n d (by rw [hds]; simp)
  have hdm : ¬ (d = '-') := by
    intro he
    rw [he] at hdig
    simp [Char.isDigit] at hdig
  have hfull : parseNatAux (d :: (ds ++ rest)) 0 = (n, rest) := by
    have := parseNatAux_full n rest h
    rw [hds] at this
    simpa using this
  rw [hds, List.cons_append, parseNumber.eq_def]
  simp only []
  rw [if_neg hdm, if_pos hdig]
  simp only [hfull, badNumTail_of_numStop rest h, if_false]
  simp

theorem parseNumber_intRepr (i : Int) (rest : List Char) (h : numStop rest = true) :
    parseNumber (intRepr i ++ rest) = some (.jnum i, rest) := by
  rcases Int.le_or_lt 0 i with hi | hi
  · rw [intRepr, if_neg (by omega), parseNumber_natDigits _ _ h,
      Int.toNat_of_nonneg hi]
  · rw [intRepr, if_pos hi]
    obtain ⟨d, ds, hds⟩ : ∃ d ds, natDigits (-i).toNat = d :: ds := by
      cases hnd : natDigits (-i).toNat with
      | nil => exact absurd hnd (natDigits_ne_nil _)
      | cons d ds => exact ⟨d, ds, rfl⟩
    have hdig : d.isDigit = true := natDigits_mem_digit _ d (by rw [hds]; simp)
    have hfull : parseNatAux (d :: (ds ++ rest)) 0 = ((-i).toNat, rest) := by
      have := parseNatAux_full (-i).toNat rest h
      rw [hds] at this
      simpa using this
    rw [List.cons_append, parseNumber.eq_def]
    simp only []
    simp only [if_true]
    rw [hds, List.cons_append]
    simp only [hdig, if_true, hfull, badNumTail_of_numStop rest h, if_false]
    have hcast : (((-i).toNat : Int)) = -i := Int.toNat_of_nonneg (by omega)
    rw [hcast]
    simp

theorem parseIntFull_intRepr (t : Int) : parseIntFull (String.mk (intRepr t)) = some t := by
  have h : parseNumber (intRepr t ++ []) = some (.jnum t, []) :=
    parseNumber_intRepr t [] rfl
  rw [List.append_nil] at h
  rw [parseIntFull]
  simp only [h]

/-! ## Codec correctness: JSON layer -/

/-- A character that survives this model's string serialization verbatim:
ASCII (one UTF-8 byte) and needing no escape. -/
def safeChar (c : Char) : Bool := c.toNat < 128 && c ≠ '"' && c ≠ '\\'

def safeStr (s : String) : Bool := s.data.all safeChar

/-- A payload value the handler can serialize: a number, a safe string, or
a `Date` (whose transport form is a quoted decimal string). -/
def serializableVal : JVal → Bool
  | .jnum _ => true
  | .jstr s => safeStr s
  | .jdate _ => true
  | _ => false

/-- The value as it re-emerges from `JSON.parse` after `JSON.stringify`:
dates come back as their string form, scalars survive unchanged. -/
def jsonImage : JVal → JVal
  | .jdate t => .jstr (String.mk (intRepr t))
  | v => v

def fieldOk (kv : String × JVal) : Bool := safeStr kv.1 && serializableVal kv.2

def mapImage (fs : List (String × JVal)) : List (String × JVal) :=
  fs.map fun kv => (kv.1, jsonImage kv.2)

theorem skipWs_cons (c : Char) (cs : List Char) (h : isJsonWs c = false) :
    skipWs (c :: cs) = c :: cs := by
  rw [skipWs, h]
  simp

theorem parseStrAux_roundtrip : ∀ (l : List Char) (acc rest : List Char),
    (∀ c ∈ l, safeChar c = true) →
    parseStrAux (l ++ '"' :: rest) acc = some (String.mk (acc.reverse ++ l), rest)
  | [], acc, rest, _ => by
      simp [parseStrAux]
  | c :: l, acc, rest, h => by
      have hc : safeChar c = true := h c (by simp)
      simp only [safeChar, Bool.and_eq_true, decide_eq_true_eq] at hc
      rw [List.cons_append, parseStrAux, if_neg hc.1.2, if_neg hc.2,
        parseStrAux_roundtrip l (c :: acc) rest (fun d hd => h d (by simp [hd]))]
      simp

/-- Characters of a rendered natural number are digits, hence safe. -/
theorem natDigits_safe (n : Nat) : ∀ c ∈ natDigits n,
    safeChar c = true ∧ isJsonWs c = false ∧ c.isDigit = true := by
  intro c hc
  obtain ⟨d, hd, hcd⟩ := natDigits_mem n c hc
  have hp := digitChar_props d hd
  subst hcd
  refine ⟨?_, hp.2.2.1, hp.1⟩
  simp only [safeChar, Bool.and_eq_true, decide_eq_true_eq]
  exact ⟨⟨hp.2.2.2.2.2.1, hp.2.2.2.1⟩, hp.2.2.2.2.1⟩

theorem dash_facts : safeChar '-' = true ∧ isJsonWs '-' = false ∧
    ('-' = '{') = False ∧ ('-' = '[') = False ∧ ('-' = '"') = False ∧
    ('-' = 'n') = False ∧ ('-' = 't') = False ∧ ('-' = 'f') = False := by
  refine ⟨by decide, by decide, by simp, by simp, by simp, by simp, by simp, by simp⟩

/-- All safe characters of `intRepr`. -/
theorem intRepr_safe (i : Int) : ∀ c ∈ intRepr i, safeChar c = true ∧ isJsonWs c = false := by
  intro c hc
  rw [intRepr] at hc
  split at hc
  · rcases List.mem_cons.mp hc with hc | hc
    · subst hc
      exact ⟨dash_facts.1, dash_facts.2.1⟩
    · have := natDigits_safe _ c hc
      exact ⟨this.1, this.2.1⟩
  · have := natDigits_safe _ c hc
    exact ⟨this.1, this.2.1⟩

/-- A digit char selects no structured-value branch of `parseVal`. -/
theorem digit_not_special (c : Char) (h : c.isDigit = true) :
    (c = '{') = False ∧ (c = '[') = False ∧ (c = '"') = False ∧
    (c = 'n') = False ∧ (c = 't') = False ∧ (c = 'f') = False := by
  refine ⟨?_, ?_, ?_, ?_, ?_, ?_⟩ <;>
    · simp only [eq_iff_iff, iff_false]
      intro he
      subst he
      simp [Char.isDigit] at h

/-- Numbers parse back from their rendering inside `parseVal`. -/
theorem parseVal_number (fuel : Nat) (i : Int) (rest : List Char)
    (hstop : numStop rest = true) :
    parseVal (fuel + 1) (intRepr i ++ rest) = some (.jnum i, rest) := by
  obtain ⟨d, t, hdt, hd⟩ : ∃ d t, intRepr i = d :: t ∧ (d.isDigit = true ∨ d = '-') := by
    rw [intRepr]
    split
    · exact ⟨'-', _, rfl, Or.inr rfl⟩
    · obtain ⟨d, ds, hds⟩ : ∃ d ds, natDigits (Int.toNat i) = d :: ds := by
        cases hnd : natDigits (Int.toNat i) with
        | nil => exact absurd hnd (natDigits_ne_nil _)
        | cons d ds => exact ⟨d, ds, rfl⟩
      exact ⟨d, ds, hds, Or.inl (natDigits_mem_digit _ d (by rw [hds]; simp))⟩
  have hnum := parseNumber_intRepr i rest hstop
  rw [hdt, List.cons_append] at hnum ⊢
  have hws : isJsonWs d = false := by
    rcases hd with hd | hd
    · have h1 : ¬ d = ' ' := fun he => by rw [he] at hd; simp [Char.isDigit] at hd
      have h2 : ¬ d = '\t' := fun he => by rw [he] at hd; simp [Char.isDigit] at hd
      have h3 : ¬ d = '\n' := fun he => by rw [he] at hd; simp [Char.isDigit] at hd
      have h4 : ¬ d = '\r' := fun he => by rw [he] at hd; simp [Char.isDigit] at hd
      simp [isJsonWs, h1, h2, h3, h4]
    · exact hd ▸ dash_facts.2.1
  rw [parseVal, skipWs_cons d _ hws]
  rcases hd with hd | hd
  · have hs := digit_not_special d hd
    simp only [hs.1, hs.2.1, hs.2.2.1, hs.2.2.2.1, hs.2.2.2.2.1, hs.2.2.2.2.2,
      if_false, hnum]
  · subst hd
    simp only [dash_facts.2.2.1, dash_facts.2.2.2.1, dash_facts.2.2.2.2.1,
      dash_facts.2.2.2.2.2.1, dash_facts.2.2.2.2.2.2.1, dash_facts.2.2.2.2.2.2.2,
      if_false, hnum]

/-- Every serializable scalar parses back (to its JSON image) from its
serialization, whatever follows, provided a number may stop there. -/
theorem parseVal_scalar (fuel : Nat) (v : JVal) (hv : serializableVal v = true)
    (rest : List Char) (hstop : numStop rest = true) :
    parseVal (fuel + 1) (scalarChars v ++ rest) = some (jsonImage v, rest) := by
  cases v with
  | jnum n => exact parseVal_number fuel n rest hstop
  | jstr s =>
      have hsafe : ∀ c ∈ s.data, safeChar c = true := by
        have h2 : safeStr s = true := by simpa [serializableVal] using hv
        simpa [safeStr, List.all_eq_true] using h2
      show parseVal (fuel + 1) (('"' :: s.data ++ ['"']) ++ rest) = _
      have hshape : ('"' :: s.data ++ ['"']) ++ rest = '"' :: (s.data ++ '"' :: rest) := by
        simp
      rw [hshape, parseVal, skipWs_cons '"' _ (by decide)]
      simp +decide [parseStrAux_roundtrip s.data [] rest hsafe, jsonImage]
  | jdate t =>
      have hsafe : ∀ c ∈ intRepr t, safeChar c = true := fun c hc => (intRepr_safe t c hc).1
      show parseVal (fuel + 1) (('"' :: intRepr t ++ ['"']) ++ rest) = _
      have hshape : ('"' :: intRepr t ++ ['"']) ++ rest = '"' :: (intRepr t ++ '"' :: rest) := by
        simp
      rw [hshape, parseVal, skipWs_cons '"' _ (by decide)]
      simp +decide [parseStrAux_roundtrip (intRepr t) [] rest hsafe, jsonImage]
  | jundef => simp [serializableVal] at hv
  | jnull => simp [serializableVal] at hv
  | jbool b => simp [serializableVal] at hv
  | jobj fs => simp [serializableVal] at hv
  | jarr vs => simp [serializableVal] at hv

theorem numStop_cons (c : Char) (xs : List Char) (h1 : c.isDigit = false)
    (h2 : ¬c = '.') (h3 : ¬c = 'e') (h4 : ¬c = 'E') : numStop (c :: xs) = true := by
  simp [numStop, h1, h2, h3, h4]

/-- The members of a flat payload parse back, accumulating with
JS-object-insert semantics. -/
theorem parseMembers_roundtrip : ∀ (fs : List (String × JVal)) (fuel : Nat)
    (acc : List (String × JVal)) (rest : List Char),
    fs ≠ [] → fs.all fieldOk = true → fs.length + 1 ≤ fuel →
    parseMembers fuel (membersChars fs ++ '}' :: rest) acc =
      some (.jobj (fs.foldl (fun a kv => insertField a kv.1 (jsonImage kv.2)) acc), rest)
  | [], _, _, _, hne, _, _ => absurd rfl hne
  | (k, v) :: fs, fuel, acc, rest, _, hok, hfuel => by
      have hok1 : fieldOk (k, v) = true ∧ fs.all fieldOk = true := by
        simpa [List.all_cons] using hok
      have hkv : safeStr k = true ∧ serializableVal v = true := by
        simpa [fieldOk] using hok1.1
      have hksafe : ∀ c ∈ k.data, safeChar c = true := by
        have h2 := hkv.1
        simpa [safeStr, List.all_eq_true] using h2
      simp only [List.length_cons] at hfuel
      obtain ⟨f1, hf1⟩ : ∃ f1, fuel = f1 + 1 := ⟨fuel - 1, by omega⟩
      obtain ⟨f2, hf2⟩ : ∃ f2, f1 = f2 + 1 := ⟨f1 - 1, by omega⟩
      subst hf1
      cases fs with
      | nil =>
          have hshape : membersChars [(k, v)] ++ '}' :: rest =
              '"' :: (k.data ++ '"' :: (':' :: (scalarChars v ++ '}' :: rest))) := by
            simp [membersChars, fieldChars]
          rw [hshape, parseMembers, skipWs_cons '"' _ (by decide)]
          subst hf2
          simp +decide [parseStrAux_roundtrip k.data [] _ hksafe,
            skipWs_cons ':' _ (by decide),
            parseVal_scalar f2 v hkv.2 ('}' :: rest)
              (numStop_cons '}' rest (by decide) (by decide) (by decide) (by decide)),
            skipWs_cons '}' _ (by decide)]
      | cons kv2 fs2 =>
          have hshape : membersChars ((k, v) :: kv2 :: fs2) ++ '}' :: rest =
              '"' :: (k.data ++ '"' :: (':' :: (scalarChars v ++
                ',' :: (membersChars (kv2 :: fs2) ++ '}' :: rest)))) := by
            simp [membersChars, fieldChars]
          rw [hshape, parseMembers, skipWs_cons '"' _ (by decide)]
          subst hf2
          simp only [List.length_cons] at hfuel
          have hrec := parseMembers_roundtrip (kv2 :: fs2) (f2 + 1)
            (insertField acc k (jsonImage v)) rest (by simp) hok1.2
            (by simp only [List.length_cons]; omega)
          simp +decide [parseStrAux_roundtrip k.data [] _ hksafe,
            skipWs_cons ':' _ (by decide),
            parseVal_scalar f2 v hkv.2 (',' :: (membersChars (kv2 :: fs2) ++ '}' :: rest))
              (numStop_cons ',' _ (by decide) (by decide) (by decide) (by decide)),
            skipWs_cons ',' _ (by decide), hrec]

theorem membersChars_head : ∀ (fs : List (String × JVal)), fs ≠ [] →
    ∃ t, membersChars fs = '"' :: t
  | [], hne => absurd rfl hne
  | [(k, v)], _ => ⟨k.data ++ '"' :: ':' :: scalarChars v, by simp [membersChars, fieldChars]⟩
  | (k, v) :: kv2 :: fs, _ =>
      ⟨k.data ++ '"' :: ':' :: (scalarChars v ++ ',' :: membersChars (kv2 :: fs)), by
        simp [membersChars, fieldChars]⟩

theorem membersChars_length_ge : ∀ fs : List (String × JVal),
    fs.length ≤ (membersChars fs).length
  | [] => by simp [membersChars]
  | [(k, v)] => by simp [membersChars, fieldChars]
  | (k, v) :: kv2 :: fs => by
      have ih := membersChars_length_ge (kv2 :: fs)
      simp only [membersChars, fieldChars, List.length_cons, List.length_append] at ih ⊢
      omega

theorem serializable_not_undef (v : JVal) (h : serializableVal v = true) :
    v.isUndef = false := by
  cases v <;> simp_all [serializableVal, JVal.isUndef]

theorem filter_undef_of_ok (fs : List (String × JVal)) (h : fs.all fieldOk = true) :
    (fs.filter fun kv => !kv.2.isUndef) = fs := by
  rw [List.filter_eq_self]
  intro kv hkv
  rw [List.all_eq_true] at h
  have := h kv hkv
  simp only [fieldOk, Bool.and_eq_true] at this
  simp [serializable_not_undef kv.2 this.2]

theorem insertField_fresh : ∀ (fs : List (String × JVal)) (k : String) (v : JVal),
    k ∉ fs.map Prod.fst → insertField fs k v = fs ++ [(k, v)]
  | [], _, _, _ => rfl
  | (k', v') :: fs, k, v, h => by
      simp only [List.map_cons, List.mem_cons] at h
      rw [insertField, if_neg (by intro he; exact h (Or.inl he.symm)),
        insertField_fresh fs k v (fun hm => h (Or.inr hm))]
      simp

theorem foldl_insert_eq_append : ∀ (fs acc : List (String × JVal)),
    ((acc ++ fs).map Prod.fst).Nodup →
    fs.foldl (fun a kv => insertField a kv.1 kv.2) acc = acc ++ fs
  | [], acc, _ => by simp
  | (k, v) :: fs, acc, h => by
      have hk : k ∉ acc.map Prod.fst := by
        simp only [List.map_append, List.nodup_append] at h
        intro hm
        exact h.2.2 hm (by simp)
      rw [List.foldl_cons, insertField_fresh acc k v hk,
        foldl_insert_eq_append fs (acc ++ [(k, v)]) (by simpa using h)]
      simp

/-- `JSON.parse ∘ JSON.stringify` on a valid flat payload yields the
payload with every value replaced by its JSON image. -/
theorem jsonParse_stringifyFlat (fs : List (String × JVal)) (hne : fs ≠ [])
    (hnd : (fs.map Prod.fst).Nodup) (hok : fs.all fieldOk = true) :
    jsonParse (stringifyFlat fs) = some (.jobj (mapImage fs)) := by
  have hfilter := filter_undef_of_ok fs hok
  have hlen : (stringifyFlat fs).length = (membersChars fs).length + 2 := by
    simp [stringifyFlat, hfilter]
  obtain ⟨t, hmem⟩ := membersChars_head fs hne
  have hflat : stringifyFlat fs = '{' :: (membersChars fs ++ '}' :: []) := by
    simp [stringifyFlat, hfilter]
  rw [jsonParse, hlen, hflat]
  have hfuel : (membersChars fs).length + 2 + 2 = ((membersChars fs).length + 3) + 1 := by omega
  rw [hfuel, parseVal, skipWs_cons '{' _ (by decide)]
  have hrec := parseMembers_roundtrip fs ((membersChars fs).length + 3) [] [] hne hok
    (by have := membersChars_length_ge fs; omega)
  have hmfoldl : fs.foldl (fun a kv => insertField a kv.1 (jsonImage kv.2)) [] = mapImage fs := by
    have : fs.foldl (fun a kv => insertField a kv.1 (jsonImage kv.2)) [] =
        (mapImage fs).foldl (fun a kv => insertField a kv.1 kv.2) [] := by
      rw [mapImage, List.foldl_map]
    rw [this, foldl_insert_eq_append (mapImage fs) [] (by
      simpa [mapImage, List.map_map, Function.comp] using hnd)]
    simp
  rw [hmem]
  simp +decide [skipWs_cons '"' _ (by decide), ← hmem, hrec, hmfoldl, skipWs]

theorem safeChar_ascii (c : Char) (h : safeChar c = true) : c.toNat < 128 := by
  simp only [safeChar, Bool.and_eq_true, decide_eq_true_eq] at h
  exact h.1.1

theorem scalarChars_ascii (v : JVal) (hv : serializableVal v = true) :
    ∀ c ∈ scalarChars v, c.toNat < 128 := by
  cases v with
  | jnum n =>
      exact fun c hc => safeChar_ascii c (intRepr_safe n c hc).1
  | jstr s =>
      show ∀ c ∈ '"' :: (s.data ++ ['"']), c.toNat < 128
      refine List.forall_mem_cons.mpr ⟨by decide, List.forall_mem_append.mpr ⟨?_, by decide⟩⟩
      have hsafe : safeStr s = true := by simpa [serializableVal] using hv
      rw [safeStr, List.all_eq_true] at hsafe
      exact fun c hc => safeChar_ascii c (hsafe c hc)
  | jdate t =>
      show ∀ c ∈ '"' :: (intRepr t ++ ['"']), c.toNat < 128
      refine List.forall_mem_cons.mpr ⟨by decide, List.forall_mem_append.mpr ⟨?_, by decide⟩⟩
      exact fun c hc => safeChar_ascii c (intRepr_safe t c hc).1
  | jundef => simp [serializableVal] at hv
  | jnull => simp [serializableVal] at hv
  | jbool b => simp [serializableVal] at hv
  | jobj fs => simp [serializableVal] at hv
  | jarr vs => simp [serializableVal] at hv

theorem fieldChars_ascii (k : String) (v : JVal) (hk : safeStr k = true)
    (hv : serializableVal v = true) : ∀ c ∈ fieldChars k v, c.toNat < 128 := by
  show ∀ c ∈ '"' :: (k.data ++ '"' :: ':' :: scalarChars v), c.toNat < 128
  refine List.forall_mem_cons.mpr ⟨by decide, List.forall_mem_append.mpr ⟨?_, ?_⟩⟩
  · rw [safeStr, List.all_eq_true] at hk
    exact fun c hc => safeChar_ascii c (hk c hc)
  · refine List.forall_mem_cons.mpr ⟨by decide, List.forall_mem_cons.mpr ⟨by decide, ?_⟩⟩
    exact scalarChars_ascii v hv

theorem membersChars_ascii : ∀ fs : List (String × JVal), fs.all fieldOk = true →
    ∀ c ∈ membersChars fs, c.toNat < 128
  | [], _ => by simp [membersChars]
  | [(k, v)], hok => by
      have h1 : fieldOk (k, v) = true := by simpa [List.all_cons] using hok
      simp only [fieldOk, Bool.and_eq_true] at h1
      rw [membersChars]
      exact fieldChars_ascii k v h1.1 h1.2
  | (k, v) :: kv2 :: fs, hok => by
      have h1 : fieldOk (k, v) = true ∧ (kv2 :: fs).all fieldOk = true := by
        simpa [List.all_cons] using hok
      obtain ⟨hkv, hrest⟩ := h1
      simp only [fieldOk, Bool.and_eq_true] at hkv
      rw [membersChars]
      · refine List.forall_mem_append.mpr ⟨fieldChars_ascii k v hkv.1 hkv.2, ?_⟩
        refine List.forall_mem_cons.mpr ⟨by decide, ?_⟩
        exact membersChars_ascii (kv2 :: fs) hrest
      · simp

theorem stringifyFlat_ascii (fs : List (String × JVal)) (hok : fs.all fieldOk = true) :
    ∀ c ∈ stringifyFlat fs, c.toNat < 128 := by
  rw [stringifyFlat, filter_undef_of_ok fs hok]
  refine List.forall_mem_cons.mpr ⟨by decide, List.forall_mem_append.mpr ⟨?_, by decide⟩⟩
  exact membersChars_ascii fs hok

/-- A valid cursor payload: nonempty, distinct keys, serializable safe
fields. -/
def validPayload (fs : List (String × JVal)) : Bool :=
  !fs.isEmpty && decide ((fs.map Prod.fst).Nodup) && fs.all fieldOk

/-- Full codec round trip: decoding an encoded payload token recovers the
payload, every value in its JSON transport form. -/
theorem decode_encode_payload (fs : List (String × JVal)) (h : validPayload fs = true) :
    decodeCursorTok (encodeCursorStr fs) = some (.jobj (mapImage fs)) := by
  simp only [validPayload, Bool.and_eq_true, Bool.not_eq_true', List.isEmpty_eq_false,
    decide_eq_true_eq] at h
  obtain ⟨⟨hne, hnd⟩, hok⟩ := h
  rw [decodeCursorTok, encodeCursorStr]
  have hdata : (String.mk (b64encode ((stringifyFlat fs).map Char.toNat))).data =
      b64encode ((stringifyFlat fs).map Char.toNat) := rfl
  rw [hdata, b64_roundtrip _ (by
    intro b hb
    rw [List.mem_map] at hb
    obtain ⟨c, hc, hcb⟩ := hb
    have := stringifyFlat_ascii fs hok c hc
    omega)]
  have hmap : ((stringifyFlat fs).map Char.toNat).map Char.ofNat = stringifyFlat fs := by
    rw [List.map_map]
    have : (Char.ofNat ∘ Char.toNat) = id := by
      funext c
      simp [Function.comp, Char.ofNat_toNat]
    rw [this, List.map_id]
  rw [hmap]
  exact jsonParse_stringifyFlat fs hne hnd hok

/-! ## Claim C10: the dedicated price branch is the generic branch at
`sortBy = 'price'` -/

/-- C10: for every cursor value and sortOrder, the dedicated
`sortBy == 'price'` branch of the cursor-to-predicate translation produces
exactly the same filter update as the generic other-fields branch
instantiated with `sortBy = 'price'`: an equivalent specialization, not a
behavioral difference. -/
theorem claim_C10_price_branch_is_generic (so : String) (cv : JVal) (f : QueryFilter) :
    priceCursorBranch so cv f = genericCursorBranch "price" so cv f := rfl

/-! ## Claim C2: shape of the compiled cursor predicate -/

/-- The cursor predicate exactly as §4.2 of the spec words it, for decoded
cursor values `(v, c)`: if `sortBy == createdAt` it is a pure `createdAt`
comparison, otherwise the two-term disjunction
`(sortBy <cmp> v) OR (sortBy == v AND createdAt <cmp> c)`,
with `<cmp>` being `<` for `desc` and `>` otherwise. -/
def specCursorPred (sb so : String) (v : JVal) (c : Int) (x : Item) : Bool :=
  if sb = "createdAt" then
    (if so == "desc" then decide (x.createdAt < c) else decide (c < x.createdAt))
  else
    (if so == "desc" then bsonLt (x.get sb) v else bsonLt v (x.get sb))
    || (jvalEq (x.get sb) v &&
        (if so == "desc" then decide (x.createdAt < c) else decide (c < x.createdAt)))

/-- C2: for every request carrying a decoded cursor with values `(v, c)`
for `(sortBy, createdAt)`, the compiled cursor predicate is exactly the
spec's formula: a bare `createdAt` comparison when `sortBy == createdAt`,
and the two-term disjunction `(sortBy <cmp> v) OR (sortBy == v AND
createdAt <cmp> c)` otherwise, with `<cmp>` directed by `sortOrder`. -/
theorem claim_C2_cursor_predicate_shape (tok sb so : String) (f : QueryFilter)
    (cv pv pcv : JVal) (pc : Int)
    (hdec : decodeCursorTok tok = some cv)
    (hv : getPropE cv sb = .ok pv)
    (hcA : getPropE cv "createdAt" = .ok pcv)
    (hdate : jsDate pcv = some pc) :
    ∃ f', applyCursor tok sb so f = .ok f' ∧
      (sb = "createdAt" →
        ∀ x, condMatches f'.createdAtCond x = specCursorPred sb so pv pc x) ∧
      (sb ≠ "createdAt" → ∃ oc, f'.orClause = some oc ∧
        ∀ x, oc.matches x = specCursorPred sb so pv pc x) := by
  by_cases h1 : sb = "createdAt"
  · subst h1
    have hsame : pcv = pv := by
      rw [hv] at hcA
      exact (Except.ok.injEq _ _).mp hcA.symm |>.symm ▸ rfl
    refine ⟨{ f with createdAtCond := some (so == "desc", jsDate pcv) }, ?_, ?_, ?_⟩
    · simp only [applyCursor, hdec, createdAtCursorBranch, hcA]
      rfl
    · intro _ x
      rw [hdate]
      simp only [condMatches, specCursorPred, if_pos rfl]
      by_cases hso : so == "desc" <;> simp [hso]
    · intro hne
      exact absurd rfl hne
  · by_cases h2 : sb = "price"
    · subst h2
      refine ⟨{ f with orClause := some (.cursorCmp "price" (so == "desc") pv (jsDate pcv)) },
        ?_, ?_, ?_⟩
      · simp only [applyCursor, hdec, priceCursorBranch, hv, hcA,
          show ("price" == "createdAt") = false by decide, Bool.false_eq_true, if_false]
        rfl
      · intro hc
        exact absurd hc (by decide)
      · intro _
        refine ⟨_, rfl, ?_⟩
        intro x
        rw [hdate]
        simp only [OrClause.matches, specCursorPred, if_neg (by decide : ¬("price" = "createdAt"))]
    · refine ⟨{ f with orClause := some (.cursorCmp sb (so == "desc") pv (jsDate pcv)) },
        ?_, ?_, ?_⟩
      · have hb1 : (sb == "createdAt") = false := by
          simpa using h1
        have hb2 : (sb == "price") = false := by
          simpa using h2
        simp only [applyCursor, hdec, genericCursorBranch, hv, hcA, hb1,
          hb2, Bool.false_eq_true, if_false]
        rfl
      · intro hc
        exact absurd hc h1
      · intro _
        refine ⟨_, rfl, ?_⟩
        intro x
        rw [hdate]
        simp only [OrClause.matches, specCursorPred, if_neg h1]

/-- Witness for C2 at a concrete decoded cursor
(`{"price":10,"createdAt":"3"}`, sortOrder `desc`). -/
theorem claim_C2_witness :
    decodeCursorTok (encodeCursorStr [("price", .jnum 10), ("createdAt", .jdate 3)]) =
        some (.jobj [("price", .jnum 10), ("createdAt", .jstr "3")]) ∧
    getPropE (.jobj [("price", .jnum 10), ("createdAt", .jstr "3")]) "price" = .ok (.jnum 10) ∧
    getPropE (.jobj [("price", .jnum 10), ("createdAt", .jstr "3")]) "createdAt" =
        .ok (.jstr "3") ∧
    jsDate (.jstr "3") = some 3 ∧
    (∃ f', applyCursor (encodeCursorStr [("price", .jnum 10), ("createdAt", .jdate 3)])
        "price" "desc" {} = .ok f' ∧
      ("price" = "createdAt" →
        ∀ x, condMatches f'.createdAtCond x = specCursorPred "price" "desc" (.jnum 10) 3 x) ∧
      ("price" ≠ "createdAt" → ∃ oc, f'.orClause = some oc ∧
        ∀ x, oc.matches x = specCursorPred "price" "desc" (.jnum 10) 3 x)) :=
  ⟨rfl, rfl, rfl, rfl,
    claim_C2_cursor_predicate_shape _ "price" "desc" {} _ _ _ 3 rfl rfl rfl rfl⟩

/-! ## Claim C9: `minPrice=0` and the truthiness guard -/

/-- C9 counterexample: query parameters arrive as raw strings, and the
string `"0"` is truthy in JS, so a request with `minPrice=0` DOES apply
the `$gte: 0` bound — it does not behave like a request without
`minPrice`.  Witnessed both at the compiled-filter level and on a stored
document with a negative price (reachable in storage, which `find` does
not validate). -/
theorem claim_C9_counterexample :
    (buildFilter { minPrice := some "0" }).price = some (some (some 0), none) ∧
    (buildFilter {}).price = none ∧
    QueryFilter.matches (buildFilter { minPrice := some "0" })
      { id := 1, name := "n", category := "c", price := -1, createdAt := 0 } = false ∧
    QueryFilter.matches (buildFilter {})
      { id := 1, name := "n", category := "c", price := -1, createdAt := 0 } = true := by
  refine ⟨rfl, rfl, rfl, rfl⟩

/-- C9 amended: the guards test JS truthiness of the raw query string.
An absent or empty-string `minPrice`/`maxPrice` is falsy and the bound is
skipped; the string `"0"` (how `minPrice=0` arrives) is truthy and the
corresponding inclusive zero bound IS applied. -/
theorem claim_C9_truthiness (q : Query) :
    buildFilter { q with minPrice := some "" } = buildFilter { q with minPrice := none } ∧
    buildFilter { q with maxPrice := some "" } = buildFilter { q with maxPrice := none } ∧
    (buildFilter { q with minPrice := some "0", maxPrice := none }).price =
      some (some (some 0), none) ∧
    (buildFilter { q with minPrice := none, maxPrice := some "0" }).price =
      some (none, some (some 0)) := by
  refine ⟨?_, ?_, ?_, ?_⟩ <;> simp [buildFilter, truthy, jsNumber, jsNumberChars,
    jsNumberChars.digitsVal] <;> split <;> rfl

/-! ## Claim C7: non-positive limit is not rejected -/

/-- C7 counterexample: a request with `limit = 0` is not rejected with any
400 response; the handler runs the query (fetching one row) and answers
200 with an empty page, `hasMore = true` and no cursor. -/
theorem claim_C7_counterexample :
    getItems [{ id := 1, name := "a", category := "c", price := 5, createdAt := 1 }]
        { limit := 0 } = .page [] true none 0 0 ∧
    getItems [{ id := 1, name := "a", category := "c", price := 5, createdAt := 1 }]
        { limit := 0 } ≠ .invalidCursor := by
  exact ⟨rfl, by decide⟩

/-- C7 amended: `getItems` performs no validation of `limit`.  A `limit=0`
request proceeds to the storage query: it fetches one row, returns an
empty item list with `count = 0`, reports `hasMore = true` exactly when
some document matches the filter, and `nextCursor = null`. -/
theorem claim_C7_limit_zero (ds : List Item) (q : Query)
    (hl : q.limit = 0) (hc : q.cursor = none) :
    getItems ds q =
      .page [] (decide (0 < (ds.filter fun x => (buildFilter q).matches x).length))
        none 0 0 := by
  rw [getItems, hc, hl]
  simp only [runQuery]
  have hlen : ∀ l : List Item, (sortWith (sortLe q.sortBy q.sortOrder) l).length = l.length := by
    intro l
    induction l with
    | nil => rfl
    | cons x xs ih =>
        rw [sortWith]
        have : ∀ (y : Item) (m : List Item),
            (insertSorted (sortLe q.sortBy q.sortOrder) y m).length = m.length + 1 := by
          intro y m
          induction m with
          | nil => rfl
          | cons z zs ihm =>
              rw [insertSorted]
              split
              · simp
              · simp [ihm]
        simp [this, ih]
  set l := sortWith (sortLe q.sortBy q.sortOrder) (ds.filter fun x => (buildFilter q).matches x)
    with hldef
  have hl1 : l.length = (ds.filter fun x => (buildFilter q).matches x).length := hlen _
  have htake : ((0 : Int) + 1).toNat = 1 := rfl
  rw [htake]
  by_cases hpos : 0 < (ds.filter fun x => (buildFilter q).matches x).length
  · have hlt : (l.take 1).length = 1 := by
      rw [List.length_take]
      omega
    have hmore : (decide (((l.take 1).length : Int) > 0)) = true := by
      rw [hlt]
      decide
    simp only [hmore, hpos, decide_eq_true_eq, if_true, Int.toNat_zero, List.take_zero]
    simp [hlt, hpos]
  · have hzero : (ds.filter fun x => (buildFilter q).matches x).length = 0 := by omega
    have hlt : (l.take 1).length = 0 := by
      rw [List.length_take]
      omega
    have hnil : l.take 1 = [] := List.length_eq_zero.mp hlt
    have hmore : (decide (((l.take 1).length : Int) > 0)) = false := by
      rw [hlt]
      decide
    simp only [hmore, if_false, hnil, decide_eq_true_eq]
    simp [hpos]

/-- Witness for the amended C7 at a concrete one-item dataset. -/
theorem claim_C7_limit_zero_witness :
    ((({ limit := 0 } : Query).limit = 0) ∧ (({ limit := 0 } : Query).cursor = none)) ∧
    getItems [{ id := 1, name := "a", category := "c", price := 5, createdAt := 1 }]
        { limit := 0 } =
      .page []
        (decide (0 < (([{ id := 1, name := "a", category := "c", price := 5, createdAt := 1 }]).filter
          fun x => (buildFilter { limit := 0 }).matches x).length))
        none 0 0 :=
  ⟨⟨rfl, rfl⟩, claim_C7_limit_zero _ { limit := 0 } rfl rfl⟩

/-! ## Claim C8: unrecognized `sortBy` is not rejected -/

/-- The attribute names `item[f]` can resolve on a stored document. -/
def knownItemFields : List String :=
  ["name", "description", "category", "price", "stock", "status", "createdAt", "updatedAt"]

/-- C8 counterexample: a request sorting by an attribute outside the known
sortable set is not rejected with any 400: the handler silently answers a
200 page (sorted by the `createdAt: -1` tiebreaker, all primary keys being
`undefined`). -/
theorem claim_C8_counterexample :
    getItems
        [{ id := 1, name := "a", category := "c", price := 5, createdAt := 1 },
         { id := 2, name := "b", category := "c", price := 9, createdAt := 2 }]
        { sortBy := "bogus", limit := 5 } =
      .page
        [{ id := 2, name := "b", category := "c", price := 9, createdAt := 2 },
         { id := 1, name := "a", category := "c", price := 5, createdAt := 1 }]
        false none 5 2 ∧
    getItems
        [{ id := 1, name := "a", category := "c", price := 5, createdAt := 1 },
         { id := 2, name := "b", category := "c", price := 9, createdAt := 2 }]
        { sortBy := "bogus", limit := 5 } ≠ .invalidCursor := by
  exact ⟨rfl, by decide⟩

theorem Item_get_unknown (x : Item) (f : String) (h : f ∉ knownItemFields) :
    x.get f = .jundef := by
  simp only [knownItemFields, List.mem_cons, List.mem_singleton, not_or] at h
  obtain ⟨h1, h2, h3, h4, h5, h6, h7, h8, _⟩ := h
  rw [Item.get, if_neg h1, if_neg h2, if_neg h3, if_neg h4, if_neg h5, if_neg h6,
    if_neg h7, if_neg h8]

/-- C8 amended: an unrecognized `sortBy` is passed straight through.  All
documents tie on the missing primary key, so a cursorless request behaves
exactly like the default `createdAt`-descending sort — including the
generated cursor token, whose `undefined`-valued field is dropped by
serialization.  No `InvalidRequest` rejection exists. -/
theorem claim_C8_unknown_sortBy (ds : List Item) (q : Query)
    (hcur : q.cursor = none) (hunk : q.sortBy ∉ knownItemFields) :
    getItems ds q = getItems ds { q with sortBy := "createdAt", sortOrder := "desc" } := by
  have hne : q.sortBy ≠ "createdAt" := fun he => hunk (by rw [he]; decide)
  have hle : sortLe q.sortBy q.sortOrder = sortLe "createdAt" "desc" := by
    funext x y
    rw [sortLe, sortLe]
    simp only [Item_get_unknown x _ hunk, Item_get_unknown y _ hunk]
    have hcmp : bsonCompare JVal.jundef JVal.jundef = .eq := rfl
    have hprim : (if q.sortOrder = "desc" then bsonCompare JVal.jundef JVal.jundef
        else bsonCompare JVal.jundef JVal.jundef) = Ordering.eq := by
      split <;> rfl
    rw [hprim]
    simp only [if_neg hne]
    show decide (y.createdAt ≤ x.createdAt) =
      (match (if "createdAt" = "desc" then bsonCompare (y.get "createdAt") (x.get "createdAt")
        else bsonCompare (y.get "createdAt") (x.get "createdAt")) with
       | .lt => true | .gt => false
       | .eq => if "createdAt" = "createdAt" then true
                else decide (y.createdAt ≤ x.createdAt))
    have hgy : (y.get "createdAt") = .jdate y.createdAt := rfl
    have hgx : (x.get "createdAt") = .jdate x.createdAt := rfl
    simp only [if_neg (by decide : ¬("createdAt" = "desc")), hgy, hgx]
    rw [show bsonCompare (.jdate y.createdAt) (.jdate x.createdAt) =
        cmpInt y.createdAt x.createdAt from rfl]
    rw [cmpInt]
    rcases lt_trichotomy y.createdAt x.createdAt with h | h | h
    · rw [if_pos h]
      simp
      omega
    · rw [if_neg (by omega), if_neg (by omega)]
      simp
      omega
    · rw [if_neg (by omega), if_pos h]
      simp
      omega
  have hpay : ∀ last : Item,
      encodeCursorStr (mkCursorPayload q.sortBy last) =
        encodeCursorStr (mkCursorPayload "createdAt" last) := by
    intro last
    have h1 : mkCursorPayload q.sortBy last =
        [(q.sortBy, .jundef), ("createdAt", .jdate last.createdAt)] := by
      rw [mkCursorPayload, Item_get_unknown last _ hunk]
      show insertField [(q.sortBy, JVal.jundef)] "createdAt" (.jdate last.createdAt) = _
      rw [insertField, if_neg hne]
      rfl
    have h2 : mkCursorPayload "createdAt" last = [("createdAt", .jdate last.createdAt)] := rfl
    rw [h1, h2, encodeCursorStr, encodeCursorStr]
    congr 1
  rw [getItems, getItems]
  simp only [hcur, runQuery, hle, hpay]
  rfl

/-- Witness for the amended C8 at a concrete dataset and `sortBy=bogus`. -/
theorem claim_C8_unknown_sortBy_witness :
    ((({ sortBy := "bogus", limit := 5 } : Query).cursor = none) ∧
      (({ sortBy := "bogus", limit := 5 } : Query).sortBy ∉ knownItemFields)) ∧
    getItems [{ id := 1, name := "a", category := "c", price := 5, createdAt := 1 }]
        { sortBy := "bogus", limit := 5 } =
      getItems [{ id := 1, name := "a", category := "c", price := 5, createdAt := 1 }]
        { ({ sortBy := "bogus", limit := 5 } : Query) with
          sortBy := "createdAt", sortOrder := "desc" } :=
  ⟨⟨rfl, by decide⟩, claim_C8_unknown_sortBy _ { sortBy := "bogus", limit := 5 } rfl (by decide)⟩

/-! ## Claim C4: malformed cursors and the InvalidCursor contract -/

/-- C4 counterexample: `"e30="` is the base64 of `"{}"` — well-formed
base64 and JSON but missing every key the requested `sortBy` needs.  The
claim demands an InvalidCursor rejection; instead the `try` block succeeds
(property access on an object yields `undefined`, `new Date(undefined)`
is an Invalid Date, nothing throws) and the handler proceeds past cursor
validation to the query. -/
theorem claim_C4_counterexample :
    decodeCursorTok "e30=" = some (.jobj []) ∧
    applyCursor "e30=" "createdAt" "desc" {} =
      .ok { createdAtCond := some (true, none) } ∧
    getItems [{ id := 1, name := "a", category := "c", price := 5, createdAt := 1 }]
        { cursor := some "e30=" } ≠ .invalidCursor := by
  exact ⟨rfl, rfl, by decide⟩

/-- C4 amended: a cursor string whose base64-decoded content fails to
parse as JSON, or parses to JSON `null` (so that every property access
throws), is rejected with HTTP 400 "Invalid cursor format" before any
storage query, for every `sortBy`/`sortOrder`; but a well-formed token
whose payload merely misses the expected keys is not rejected — the
handler proceeds with `undefined` cursor values (see the counterexample). -/
theorem claim_C4_invalid_cursor_rejected (ds : List Item) (q : Query) (tok : String)
    (hne : tok ≠ "") (hcur : q.cursor = some tok)
    (hbad : decodeCursorTok tok = none ∨ decodeCursorTok tok = some .jnull) :
    getItems ds q = .invalidCursor := by
  have happly : applyCursor tok q.sortBy q.sortOrder (buildFilter q) = .error () := by
    rcases hbad with hbad | hbad
    · rw [applyCursor, hbad]
    · rw [applyCursor, hbad]
      by_cases h1 : q.sortBy == "createdAt"
      · simp only [h1, if_true]
        rfl
      · by_cases h2 : q.sortBy == "price"
        · simp only [h1, h2, if_true, Bool.false_eq_true, if_false]
          rfl
        · simp only [h1, h2, Bool.false_eq_true, if_false]
          rfl
  simp [getItems, hcur, hne, happly]

/-- Witness for the amended C4: garbage that decodes to unparseable
content (`"####"` decodes to the empty byte string). -/
theorem claim_C4_invalid_cursor_rejected_witness :
    (("####" : String) ≠ "" ∧
      (({ cursor := some "####" } : Query).cursor = some "####") ∧
      (decodeCursorTok "####" = none ∨ decodeCursorTok "####" = some .jnull)) ∧
    getItems [] { cursor := some "####" } = .invalidCursor :=
  ⟨⟨by decide, rfl, Or.inl rfl⟩,
    claim_C4_invalid_cursor_rejected [] { cursor := some "####" } "####"
      (by decide) rfl (Or.inl rfl)⟩

/-! ## Claim C3: filter/cursor composition and the `$or` overwrite -/

theorem buildFilter_createdAtCond (q : Query) : (buildFilter q).createdAtCond = none := by
  by_cases h1 : truthy q.category <;> by_cases h2 : truthy q.status <;>
    by_cases h3 : (truthy q.minPrice || truthy q.maxPrice) = true <;>
    by_cases h4 : truthy q.search <;>
    simp [buildFilter, h1, h2, h3, h4]

/-- Adding a `createdAt` cursor condition to a filter without one conjoins
it with every active filter predicate. -/
theorem matches_setCond (f : QueryFilter) (hc : f.createdAtCond = none)
    (cond : Option (Bool × Option Int)) (x : Item) :
    QueryFilter.matches { f with createdAtCond := cond } x =
      (f.matches x && condMatches cond x) := by
  rw [QueryFilter.matches, QueryFilter.matches]
  simp only [hc]
  simp [condMatches, Bool.and_assoc, Bool.and_true]

/-- C3 counterexample: with both a `search` filter and a cursor present
and `sortBy = price`, the cursor's `$or` assignment overwrites the
search's `$or`.  The compiled filter retains no trace of the search, and
the returned page contains an item matching neither `name` nor
`description` against the search pattern. -/
theorem claim_C3_counterexample :
    applyCursor (encodeCursorStr [("price", .jnum 10), ("createdAt", .jdate 3)])
        "price" "desc"
        (buildFilter { cursor := some (encodeCursorStr [("price", .jnum 10), ("createdAt", .jdate 3)]), limit := 5, sortBy := "price", sortOrder := "desc", search := some "lap" }) =
      .ok { orClause := some (.cursorCmp "price" true (.jnum 10) (some 3)) } ∧
    getItems
        [{ id := 1, name := "laptop", category := "c", price := 10, createdAt := 3 },
         { id := 2, name := "zzz", category := "c", price := 9, createdAt := 2 }]
        { cursor := some (encodeCursorStr [("price", .jnum 10), ("createdAt", .jdate 3)]),
          limit := 5, sortBy := "price", sortOrder := "desc", search := some "lap" } =
      .page [{ id := 2, name := "zzz", category := "c", price := 9, createdAt := 2 }]
        false none 5 1 ∧
    containsCI "lap" "zzz" = false ∧
    containsCI "lap" "" = false := by
  exact ⟨rfl, rfl, rfl, rfl⟩

/-- C3 amended: the AND-composition of cursor predicate and filters holds
when `sortBy = 'createdAt'` (the cursor lands in the distinct `createdAt`
key, leaving `search`'s `$or` intact); when `sortBy ≠ 'createdAt'` the
cursor's two-term disjunction is stored in the same `$or` slot the search
uses, so the compiled `$or` is the cursor's — any search `$or` is
overwritten rather than conjoined. -/
theorem claim_C3_filter_composition (q : Query) (tok : String) (f' : QueryFilter)
    (happly : applyCursor tok q.sortBy q.sortOrder (buildFilter q) = .ok f') :
    (q.sortBy = "createdAt" →
      ∀ x, f'.matches x = ((buildFilter q).matches x && condMatches f'.createdAtCond x)) ∧
    (q.sortBy ≠ "createdAt" →
      ∃ sb lt v c, f'.orClause = some (.cursorCmp sb lt v c)) := by
  rw [applyCursor] at happly
  cases hdec : decodeCursorTok tok with
  | none =>
      rw [hdec] at happly
      exact absurd happly (by simp)
  | some cv =>
      rw [hdec] at happly
      replace happly : (if (q.sortBy == "createdAt") = true then
          createdAtCursorBranch q.sortOrder cv (buildFilter q)
        else if (q.sortBy == "price") = true then
          priceCursorBranch q.sortOrder cv (buildFilter q)
        else genericCursorBranch q.sortBy q.sortOrder cv (buildFilter q)) =
          Except.ok f' := happly
      by_cases h1 : q.sortBy = "createdAt"
      · rw [if_pos (by simp [h1])] at happly
        rw [createdAtCursorBranch] at happly
        cases hp : getPropE cv "createdAt" with
        | error e =>
            rw [hp] at happly
            exact absurd happly (fun h => Except.noConfusion h)
        | ok c =>
            rw [hp] at happly
            have hf : f' = { buildFilter q with
                createdAtCond := some (q.sortOrder == "desc", jsDate c) } :=
              ((Except.ok.injEq _ _).mp happly).symm
            constructor
            · intro _ x
              rw [hf]
              exact matches_setCond (buildFilter q) (buildFilter_createdAtCond q) _ x
            · intro hne
              exact absurd h1 hne
      · rw [if_neg (by simp [h1])] at happly
        refine ⟨fun hc => absurd hc h1, fun _ => ?_⟩
        by_cases h2 : q.sortBy = "price"
        · rw [if_pos (by simp [h2]), priceCursorBranch] at happly
          cases hp1 : getPropE cv "price" with
          | error e =>
              rw [hp1] at happly
              exact absurd happly (fun h => Except.noConfusion h)
          | ok v =>
              rw [hp1] at happly
              cases hp2 : getPropE cv "createdAt" with
              | error e =>
                  rw [hp2] at happly
                  exact absurd happly (fun h => Except.noConfusion h)
              | ok c =>
                  rw [hp2] at happly
                  have hf : f' = { buildFilter q with
                      orClause := some (.cursorCmp "price" (q.sortOrder == "desc") v (jsDate c)) } :=
                    ((Except.ok.injEq _ _).mp happly).symm
                  exact ⟨"price", q.sortOrder == "desc", v, jsDate c, by rw [hf]⟩
        · rw [if_neg (by simp [h2]), genericCursorBranch] at happly
          cases hp1 : getPropE cv q.sortBy with
          | error e =>
              rw [hp1] at happly
              exact absurd happly (fun h => Except.noConfusion h)
          | ok v =>
              rw [hp1] at happly
              cases hp2 : getPropE cv "createdAt" with
              | error e =>
                  rw [hp2] at happly
                  exact absurd happly (fun h => Except.noConfusion h)
              | ok c =>
                  rw [hp2] at happly
                  have hf : f' = { buildFilter q with
                      orClause := some (.cursorCmp q.sortBy (q.sortOrder == "desc") v (jsDate c)) } :=
                    ((Except.ok.injEq _ _).mp happly).symm
                  exact ⟨q.sortBy, q.sortOrder == "desc", v, jsDate c, by rw [hf]⟩

/-- Witness for the amended C3 on a concrete `createdAt`-sorted request
with an active search filter. -/
theorem claim_C3_filter_composition_witness :
    (applyCursor (encodeCursorStr [("createdAt", .jdate 3)]) "createdAt" "desc"
        (buildFilter { cursor := some (encodeCursorStr [("createdAt", .jdate 3)]), search := some "lap" }) =
      .ok { orClause := some (.search "lap"), createdAtCond := some (true, some 3) }) ∧
    (("createdAt" : String) = "createdAt" →
      ∀ x, QueryFilter.matches
          { orClause := some (.search "lap"), createdAtCond := some (true, some 3) } x =
        ((buildFilter { cursor := some (encodeCursorStr [("createdAt", .jdate 3)]), search := some "lap" }).matches x &&
          condMatches (some (true, some 3)) x)) := by
  refine ⟨rfl, ?_⟩
  have h := claim_C3_filter_composition
    { cursor := some (encodeCursorStr [("createdAt", .jdate 3)]), search := some "lap" }
    (encodeCursorStr [("createdAt", .jdate 3)])
    { orClause := some (.search "lap"), createdAtCond := some (true, some 3) } rfl
  exact h.1

/-! ## Claim C5: cursor codec round trip -/

/-- C5: for every valid CursorPayload — the mapping holding the `sortBy`
value of the last item plus that item's `createdAt`, with values in their
JSON transport form — decoding the encoded token recovers the payload
exactly: `decode(encode(p)) == p`, where encode is JSON-serialization
followed by base64 and decode is the reverse. -/
theorem claim_C5_codec_roundtrip (fs : List (String × JVal))
    (h1 : validPayload fs = true) (h2 : mapImage fs = fs) :
    decodeCursorTok (encodeCursorStr fs) = some (.jobj fs) := by
  rw [decode_encode_payload fs h1, h2]

/-- Witness for C5 at the concrete payload
`{"price":999,"createdAt":"1700"}`. -/
theorem claim_C5_codec_roundtrip_witness :
    (validPayload [("price", .jnum 999), ("createdAt", .jstr "1700")] = true ∧
      mapImage [("price", .jnum 999), ("createdAt", .jstr "1700")] =
        [("price", .jnum 999), ("createdAt", .jstr "1700")]) ∧
    decodeCursorTok (encodeCursorStr [("price", .jnum 999), ("createdAt", .jstr "1700")]) =
      some (.jobj [("price", .jnum 999), ("createdAt", .jstr "1700")]) :=
  ⟨⟨rfl, rfl⟩, claim_C5_codec_roundtrip _ rfl rfl⟩

/-! ## Sort-function correctness -/

theorem insertSorted_perm (le : Item → Item → Bool) (x : Item) :
    ∀ l : List Item, List.Perm (insertSorted le x l) (x :: l)
  | [] => List.Perm.refl _
  | y :: ys => by
      rw [insertSorted]
      split
      · exact List.Perm.refl _
      · exact ((insertSorted_perm le x ys).cons y).trans (List.Perm.swap x y ys)

theorem sortWith_perm (le : Item → Item → Bool) : ∀ l : List Item, List.Perm (sortWith le l) l
  | [] => List.Perm.refl _
  | x :: xs => by
      rw [sortWith]
      exact (insertSorted_perm le x (sortWith le xs)).trans ((sortWith_perm le xs).cons x)

theorem insertSorted_pairwise (le : Item → Item → Bool)
    (htotal : ∀ a b, le a b || le b a)
    (htrans : ∀ a b c, le a b = true → le b c = true → le a c = true)
    (x : Item) : ∀ l : List Item, l.Pairwise (le · · = true) →
    (insertSorted le x l).Pairwise (le · · = true)
  | [], _ => by simp [insertSorted]
  | y :: ys, hp => by
      rw [insertSorted]
      rw [List.pairwise_cons] at hp
      split
      next hxy =>
        rw [List.pairwise_cons]
        refine ⟨?_, List.pairwise_cons.mpr hp⟩
        intro z hz
        rcases List.mem_cons.mp hz with hz | hz
        · exact hz ▸ hxy
        · exact htrans x y z hxy (hp.1 z hz)
      next hxy =>
        have hyx : le y x = true := by
          have := htotal x y
          simp only [Bool.or_eq_true] at this
          rcases this with h | h
          · exact absurd h hxy
          · exact h
        rw [List.pairwise_cons]
        refine ⟨?_, insertSorted_pairwise le htotal htrans x ys hp.2⟩
        intro z hz
        have hmem : z ∈ x :: ys := (insertSorted_perm le x ys).mem_iff.mp hz
        rcases List.mem_cons.mp hmem with hz' | hz'
        · exact hz' ▸ hyx
        · exact hp.1 z hz'

theorem sortWith_pairwise (le : Item → Item → Bool)
    (htotal : ∀ a b, le a b || le b a)
    (htrans : ∀ a b c, le a b = true → le b c = true → le a c = true) :
    ∀ l : List Item, (sortWith le l).Pairwise (le · · = true)
  | [] => List.Pairwise.nil
  | x :: xs => by
      rw [sortWith]
      exact insertSorted_pairwise le htotal htrans x _ (sortWith_pairwise le htotal htrans xs)

/-- Two sorted permutations of the same elements agree, provided `le` is
antisymmetric on those elements. -/
theorem sorted_perm_unique : ∀ (le : Item → Item → Bool) (l m : List Item), List.Perm l m →
    l.Pairwise (le · · = true) → m.Pairwise (le · · = true) →
    (∀ a b, a ∈ l → b ∈ l → le a b = true → le b a = true → a = b) →
    l = m
  | _, [], [], _, _, _, _ => rfl
  | le, [], b :: m, hperm, _, _, _ => absurd hperm.length_eq (by simp)
  | le, a :: l, [], hperm, _, _, _ => absurd hperm.length_eq (by simp)
  | le, a :: l, b :: m, hperm, hl, hm, hanti => by
      have hab : a = b := by
        have hbmem : b ∈ a :: l := hperm.mem_iff.mpr (by simp)
        have hamem : a ∈ b :: m := hperm.mem_iff.mp (by simp)
        rcases List.mem_cons.mp hbmem with h | hbl
        · exact h.symm
        rcases List.mem_cons.mp hamem with h | ham
        · exact h
        have h1 : le a b = true := (List.pairwise_cons.mp hl).1 b hbl
        have h2 : le b a = true := by
          have := (List.pairwise_cons.mp hm).1 a ham
          exact this
        exact hanti a b (by simp) (by simp [hbl]) h1 h2
      subst hab
      have hperm' : List.Perm l m := (List.perm_cons a).mp hperm
      have := sorted_perm_unique le l m hperm' (List.pairwise_cons.mp hl).2
        (List.pairwise_cons.mp hm).2
        (fun x y hx hy => hanti x y (by simp [hx]) (by simp [hy]))
      rw [this]

/-- `sortWith` computes the unique sorted arrangement. -/
theorem sortWith_eq_of_sorted (le : Item → Item → Bool) (l m : List Item)
    (htotal : ∀ a b, le a b || le b a)
    (htrans : ∀ a b c, le a b = true → le b c = true → le a c = true)
    (hperm : List.Perm l m) (hm : m.Pairwise (le · · = true))
    (hanti : ∀ a b, a ∈ l → b ∈ l → le a b = true → le b a = true → a = b) :
    sortWith le l = m := by
  refine sorted_perm_unique le (sortWith le l) m ((sortWith_perm le l).trans hperm)
    (sortWith_pairwise le htotal htrans l) hm ?_
  intro a b ha hb
  exact hanti a b ((sortWith_perm le l).mem_iff.mp ha) ((sortWith_perm le l).mem_iff.mp hb)

/-- In a strictly sorted list `l₁ ++ last :: l₂`, the elements strictly
after `last` — those `x` with `le last x` but not `le x last` — are
exactly `l₂`. -/
theorem filter_strict_after (le : Item → Item → Bool) :
    ∀ (l₁ : List Item) (last : Item) (l₂ : List Item),
    (l₁ ++ last :: l₂).Pairwise (fun a b => le a b = true ∧ le b a = false) →
    (l₁ ++ last :: l₂).filter (fun x => le last x && !le x last) = l₂
  | [], last, l₂, hp => by
      rw [List.nil_append] at hp ⊢
      rw [List.filter_cons]
      have hself : (le last last && !le last last) = false := by
        cases h : le last last <;> simp [h]
      rw [hself]
      simp only [Bool.false_eq_true, if_false]
      rw [List.filter_eq_self]
      intro x hx
      have := (List.pairwise_cons.mp hp).1 x hx
      simp [this.1, this.2]
  | y :: l₁, last, l₂, hp => by
      rw [List.cons_append] at hp ⊢
      rw [List.filter_cons]
      have hylast : le last y = false := by
        have := (List.pairwise_cons.mp hp).1 last (by simp)
        exact this.2
      rw [hylast]
      simp only [Bool.false_and, Bool.false_eq_true, if_false]
      exact filter_strict_after le l₁ last l₂ (List.pairwise_cons.mp hp).2

/-! ## The compiled order under a well-behaved sort mode -/

/-- The non-`Date` sortable attributes (sorting by `updatedAt` would
compare a stored `Date` against the string form the payload carries, which
never matches under BSON typing). -/
def nonDateFields : List String :=
  ["name", "description", "category", "price", "stock", "status"]

theorem cmpInt_lt_iff (a b : Int) : cmpInt a b = .lt ↔ a < b := by
  rw [cmpInt]
  split
  · simp_all
  · split <;> simp_all <;> omega

theorem cmpInt_eq_iff (a b : Int) : cmpInt a b = .eq ↔ a = b := by
  rw [cmpInt]
  split
  · simp_all
    omega
  · split <;> simp_all <;> omega

theorem cmpStr_lt_iff (a b : String) : cmpStr a b = .lt ↔ a < b := by
  rw [cmpStr]
  split
  · simp_all
  · split <;> simp_all

theorem cmpStr_eq_iff (a b : String) : cmpStr a b = .eq ↔ a = b := by
  rw [cmpStr]
  split
  next h => simp_all [ne_of_lt h]
  next h =>
    split
    next h2 => simp_all [(ne_of_lt h2).symm]
    next h2 => simp_all [le_antisymm (not_lt.mp h2) (not_lt.mp h)]

/-- The primary comparison of the compiled sort. -/
def primOrd (sb so : String) (x y : Item) : Ordering :=
  if so = "desc" then bsonCompare (y.get sb) (x.get sb)
  else bsonCompare (x.get sb) (y.get sb)

theorem sortLe_eq (sb so : String) (x y : Item) :
    sortLe sb so x y = (match primOrd sb so x y with
      | .lt => true
      | .gt => false
      | .eq => if sb = "createdAt" then true else decide (y.createdAt ≤ x.createdAt)) := rfl

/-- Shape of the primary key under a usable `sortBy`. -/
theorem get_shape (sb : String) (hsb : sb = "createdAt" ∨ sb ∈ nonDateFields) :
    (sb ≠ "createdAt" ∧ ((∃ f : Item → Int, ∀ z : Item, z.get sb = .jnum (f z)) ∨
      (∃ f : Item → String, ∀ z : Item, z.get sb = .jstr (f z)))) ∨
    (sb = "createdAt" ∧ ∀ z : Item, z.get sb = .jdate z.createdAt) := by
  rcases hsb with h | h
  · right
    exact ⟨h, fun z => by rw [h]; rfl⟩
  · left
    fin_cases h
    · exact ⟨by decide, Or.inr ⟨Item.name, fun z => rfl⟩⟩
    · exact ⟨by decide, Or.inr ⟨Item.description, fun z => rfl⟩⟩
    · exact ⟨by decide, Or.inr ⟨Item.category, fun z => rfl⟩⟩
    · exact ⟨by decide, Or.inl ⟨Item.price, fun z => rfl⟩⟩
    · exact ⟨by decide, Or.inl ⟨Item.stock, fun z => rfl⟩⟩
    · exact ⟨by decide, Or.inr ⟨Item.status, fun z => rfl⟩⟩

theorem primOrd_swap (sb so : String) (hsb : sb = "createdAt" ∨ sb ∈ nonDateFields)
    (x y : Item) : primOrd sb so y x = (primOrd sb so x y).swap := by
  have hswap : ∀ a b : Item, bsonCompare (a.get sb) (b.get sb) =
      (bsonCompare (b.get sb) (a.get sb)).swap := by
    intro a b
    rcases get_shape sb hsb with ⟨_, ⟨f, hf⟩ | ⟨f, hf⟩⟩ | ⟨_, hf⟩
    · rw [hf a, hf b]
      show cmpInt (f a) (f b) = (cmpInt (f b) (f a)).swap
      rw [cmpInt, cmpInt]
      rcases lt_trichotomy (f a) (f b) with h | h | h
      · rw [if_pos h, if_neg (by omega), if_pos h]
        rfl
      · rw [if_neg (by omega), if_neg (by omega), if_neg (by omega), if_neg (by omega)]
        rfl
      · rw [if_neg (by omega), if_pos h, if_pos h]
        rfl
    · rw [hf a, hf b]
      show cmpStr (f a) (f b) = (cmpStr (f b) (f a)).swap
      rw [cmpStr, cmpStr]
      rcases lt_trichotomy (f a) (f b) with h | h | h
      · rw [if_pos h, if_neg (lt_asymm h), if_pos h]
        rfl
      · rw [if_neg (by rw [h]; exact lt_irrefl _), if_neg (by rw [h]; exact lt_irrefl _),
          if_neg (by rw [h]; exact lt_irrefl _), if_neg (by rw [h]; exact lt_irrefl _)]
        rfl
      · rw [if_neg (lt_asymm h), if_pos h, if_pos h]
        rfl
    · rw [hf a, hf b]
      show cmpInt a.createdAt b.createdAt = (cmpInt b.createdAt a.createdAt).swap
      rw [cmpInt, cmpInt]
      rcases lt_trichotomy a.createdAt b.createdAt with h | h | h
      · rw [if_pos h, if_neg (by omega), if_pos h]
        rfl
      · rw [if_neg (by omega), if_neg (by omega), if_neg (by omega), if_neg (by omega)]
        rfl
      · rw [if_neg (by omega), if_pos h, if_pos h]
        rfl
  rw [primOrd, primOrd]
  split
  · exact hswap x y
  · exact hswap y x

theorem primOrd_eq_get (sb so : String) (hsb : sb = "createdAt" ∨ sb ∈ nonDateFields)
    (x y : Item) (h : primOrd sb so x y = .eq) : x.get sb = y.get sb := by
  have hcore : ∀ a b : Item, bsonCompare (a.get sb) (b.get sb) = .eq → a.get sb = b.get sb := by
    intro a b hab
    rcases get_shape sb hsb with ⟨_, ⟨f, hf⟩ | ⟨f, hf⟩⟩ | ⟨_, hf⟩
    · rw [hf a, hf b] at hab ⊢
      have : cmpInt (f a) (f b) = .eq := hab
      rw [cmpInt_eq_iff] at this
      rw [this]
    · rw [hf a, hf b] at hab ⊢
      have : cmpStr (f a) (f b) = .eq := hab
      rw [cmpStr_eq_iff] at this
      rw [this]
    · rw [hf a, hf b] at hab ⊢
      have : cmpInt a.createdAt b.createdAt = .eq := hab
      rw [cmpInt_eq_iff] at this
      rw [this]
  rw [primOrd] at h
  split at h
  · exact (hcore y x h).symm
  · exact hcore x y h

theorem primOrd_congr_right (sb so : String) (x y z : Item)
    (h : y.get sb = z.get sb) : primOrd sb so x y = primOrd sb so x z := by
  rw [primOrd, primOrd, h]

theorem primOrd_trans_lt (sb so : String) (hsb : sb = "createdAt" ∨ sb ∈ nonDateFields)
    (x y z : Item) (h1 : primOrd sb so x y = .lt) (h2 : primOrd sb so y z = .lt) :
    primOrd sb so x z = .lt := by
  have hcore : ∀ a b c : Item, bsonCompare (a.get sb) (b.get sb) = .lt →
      bsonCompare (b.get sb) (c.get sb) = .lt →
      bsonCompare (a.get sb) (c.get sb) = .lt := by
    intro a b c hab hbc
    rcases get_shape sb hsb with ⟨_, ⟨f, hf⟩ | ⟨f, hf⟩⟩ | ⟨_, hf⟩
    · rw [hf a, hf b] at hab
      rw [hf b, hf c] at hbc
      rw [hf a, hf c]
      have h1 : f a < f b := (cmpInt_lt_iff _ _).mp hab
      have h2 : f b < f c := (cmpInt_lt_iff _ _).mp hbc
      exact (cmpInt_lt_iff _ _).mpr (lt_trans h1 h2)
    · rw [hf a, hf b] at hab
      rw [hf b, hf c] at hbc
      rw [hf a, hf c]
      have h1 : f a < f b := (cmpStr_lt_iff _ _).mp hab
      have h2 : f b < f c := (cmpStr_lt_iff _ _).mp hbc
      exact (cmpStr_lt_iff _ _).mpr (lt_trans h1 h2)
    · rw [hf a, hf b] at hab
      rw [hf b, hf c] at hbc
      rw [hf a, hf c]
      have h1 : a.createdAt < b.createdAt := (cmpInt_lt_iff _ _).mp hab
      have h2 : b.createdAt < c.createdAt := (cmpInt_lt_iff _ _).mp hbc
      exact (cmpInt_lt_iff _ _).mpr (lt_trans h1 h2)
  rw [primOrd] at h1 h2 ⊢
  by_cases hso : so = "desc"
  · rw [if_pos hso] at h1 h2 ⊢
    exact hcore z y x h2 h1
  · rw [if_neg hso] at h1 h2 ⊢
    exact hcore x y z h1 h2

/-- Totality of the compiled order. -/
theorem sortLe_total (sb so : String) (hsb : sb = "createdAt" ∨ sb ∈ nonDateFields)
    (x y : Item) : (sortLe sb so x y || sortLe sb so y x) = true := by
  rw [sortLe_eq, sortLe_eq]
  have hswap := primOrd_swap sb so hsb x y
  cases hord : primOrd sb so x y with
  | lt => simp
  | gt =>
      rw [hord] at hswap
      rw [hswap]
      simp [Ordering.swap]
  | eq =>
      rw [hord] at hswap
      rw [hswap]
      show ((if sb = "createdAt" then true else decide (y.createdAt ≤ x.createdAt)) ||
        (if sb = "createdAt" then true else decide (x.createdAt ≤ y.createdAt))) = true
      split
      · simp
      · simp only [Bool.or_eq_true, decide_eq_true_eq]
        omega

/-- Transitivity of the compiled order. -/
theorem sortLe_trans (sb so : String) (hsb : sb = "createdAt" ∨ sb ∈ nonDateFields)
    (x y z : Item) (h1 : sortLe sb so x y = true) (h2 : sortLe sb so y z = true) :
    sortLe sb so x z = true := by
  rw [sortLe_eq] at h1 h2 ⊢
  cases hxy : primOrd sb so x y with
  | gt => rw [hxy] at h1; simp at h1
  | lt =>
      cases hyz : primOrd sb so y z with
      | gt => rw [hyz] at h2; simp at h2
      | lt => rw [primOrd_trans_lt sb so hsb x y z hxy hyz]
      | eq =>
          have hg := primOrd_eq_get sb so hsb y z hyz
          rw [← primOrd_congr_right sb so x y z hg, hxy]
  | eq =>
      have hg := primOrd_eq_get sb so hsb x y hxy
      cases hyz : primOrd sb so y z with
      | gt => rw [hyz] at h2; simp at h2
      | lt =>
          have hxz : primOrd sb so x z = .lt := by
            rw [primOrd] at hyz ⊢
            by_cases hso : so = "desc"
            · rw [if_pos hso] at hyz ⊢
              rw [hg]
              exact hyz
            · rw [if_neg hso] at hyz ⊢
              rw [hg]
              exact hyz
          rw [hxz]
      | eq =>
          have hxz : primOrd sb so x z = .eq := by
            rw [primOrd] at hyz ⊢
            by_cases hso : so = "desc"
            · rw [if_pos hso] at hyz ⊢
              rw [hg]
              exact hyz
            · rw [if_neg hso] at hyz ⊢
              rw [hg]
              exact hyz
          rw [hxz]
          rw [hxy] at h1
          rw [hyz] at h2
          by_cases hca : sb = "createdAt"
          · rw [if_pos hca]
          · rw [if_neg hca] at h1 h2 ⊢
            simp only [decide_eq_true_eq] at h1 h2 ⊢
            omega

/-- Two items each allowed to precede the other share their `createdAt`. -/
theorem sortLe_antisymm_createdAt (sb so : String)
    (hsb : sb = "createdAt" ∨ sb ∈ nonDateFields) (x y : Item)
    (h1 : sortLe sb so x y = true) (h2 : sortLe sb so y x = true) :
    x.createdAt = y.createdAt := by
  rw [sortLe_eq] at h1 h2
  have hswap := primOrd_swap sb so hsb x y
  cases hxy : primOrd sb so x y with
  | lt =>
      rw [hxy] at hswap
      rw [hswap] at h2
      simp [Ordering.swap] at h2
  | gt => rw [hxy] at h1; simp at h1
  | eq =>
      rw [hxy] at h1 hswap
      rw [hswap] at h2
      by_cases hca : sb = "createdAt"
      · have hg := primOrd_eq_get sb so hsb x y hxy
        rw [hca] at hg
        have hx : Item.get x "createdAt" = .jdate x.createdAt := rfl
        have hy : Item.get y "createdAt" = .jdate y.createdAt := rfl
        rw [hx, hy] at hg
        exact JVal.jdate.inj hg
      · rw [if_neg hca] at h1
        have h2' : decide (x.createdAt ≤ y.createdAt) = true := by
          rw [if_neg hca] at h2
          exact h2
        simp only [decide_eq_true_eq] at h1 h2'
        omega

theorem jvalEq_num (a b : Int) : jvalEq (.jnum a) (.jnum b) = (a == b) := rfl

theorem jvalEq_str (a b : String) : jvalEq (.jstr a) (.jstr b) = (a == b) := rfl

/-- The strict version of the compiled order, as a Boolean. -/
def strictAfter (sb so : String) (last x : Item) : Bool :=
  sortLe sb so last x && !sortLe sb so x last

theorem cmpInt_gt_iff (a b : Int) : cmpInt a b = .gt ↔ b < a := by
  rw [cmpInt]
  split
  · simp_all
    omega
  · split <;> simp_all

theorem cmpStr_gt_iff (a b : String) : cmpStr a b = .gt ↔ b < a := by
  rw [cmpStr]
  split
  next h => simp_all [lt_asymm h]
  · split <;> simp_all

/-- Mode `sortBy = createdAt`: the compiled cursor condition selects
exactly the items strictly after `last` in the compiled order. -/
theorem condMatches_strictAfter (so : String) (last x : Item) :
    condMatches (some (so == "desc", some last.createdAt)) x =
      strictAfter "createdAt" so last x := by
  rw [strictAfter, sortLe_eq, sortLe_eq]
  have hgl : ∀ a b : Item, primOrd "createdAt" so a b =
      (if so = "desc" then cmpInt b.createdAt a.createdAt
       else cmpInt a.createdAt b.createdAt) := by
    intro a b
    rw [primOrd]
    rfl
  rw [hgl, hgl]
  by_cases hso : so = "desc"
  · have hb : (so == "desc") = true := by simp [hso]
    rw [if_pos hso, if_pos hso, hb]
    rw [show condMatches (some (true, some last.createdAt)) x =
      decide (x.createdAt < last.createdAt) from rfl]
    rcases lt_trichotomy x.createdAt last.createdAt with h | h | h
    · rw [(cmpInt_lt_iff _ _).mpr h, (cmpInt_gt_iff _ _).mpr h]
      simp [h]
    · rw [(cmpInt_eq_iff _ _).mpr h, (cmpInt_eq_iff _ _).mpr h.symm]
      simp [h]
    · rw [(cmpInt_gt_iff _ _).mpr h, (cmpInt_lt_iff _ _).mpr h]
      simp
      omega
  · have hb : (so == "desc") = false := by simp [hso]
    rw [if_neg hso, if_neg hso, hb]
    rw [show condMatches (some (false, some last.createdAt)) x =
      decide (last.createdAt < x.createdAt) from rfl]
    rcases lt_trichotomy last.createdAt x.createdAt with h | h | h
    · rw [(cmpInt_lt_iff _ _).mpr h, (cmpInt_gt_iff _ _).mpr h]
      simp [h]
    · rw [(cmpInt_eq_iff _ _).mpr h, (cmpInt_eq_iff _ _).mpr h.symm]
      simp [h]
    · rw [(cmpInt_gt_iff _ _).mpr h, (cmpInt_lt_iff _ _).mpr h]
      simp
      omega

theorem strict_decide (a b : Int) :
    (decide (a < b) : Bool) = (decide (a ≤ b) && !decide (b ≤ a)) := by
  by_cases h1 : a < b <;> by_cases h2 : a ≤ b <;> by_cases h3 : b ≤ a <;>
    simp [h1, h2, h3] <;> omega

/-- Mode `sortBy ∈ nonDateFields`, `sortOrder = desc`: the compiled
two-term `$or` disjunction selects exactly the items strictly after
`last` in the compiled order. -/
theorem orMatches_strictAfter (sb : String) (hsb : sb ∈ nonDateFields) (last x : Item) :
    (OrClause.cursorCmp sb true (last.get sb) (some last.createdAt)).matches x =
      strictAfter sb "desc" last x := by
  have hsb' : sb = "createdAt" ∨ sb ∈ nonDateFields := Or.inr hsb
  have hOr : (OrClause.cursorCmp sb true (last.get sb) (some last.createdAt)).matches x =
      (bsonLt (x.get sb) (last.get sb) ||
        (jvalEq (x.get sb) (last.get sb) && decide (x.createdAt < last.createdAt))) := rfl
  have hca : sb ≠ "createdAt" := by
    intro he
    rw [he] at hsb
    exact absurd hsb (by decide)
  rw [hOr, strictAfter, sortLe_eq, sortLe_eq]
  have hp1 : primOrd sb "desc" last x = bsonCompare (x.get sb) (last.get sb) := rfl
  have hp2 : primOrd sb "desc" x last = bsonCompare (last.get sb) (x.get sb) := rfl
  rw [hp1, hp2]
  rcases get_shape sb hsb' with ⟨_, ⟨f, hf⟩ | ⟨f, hf⟩⟩ | ⟨hisca, _⟩
  · rw [hf x, hf last]
    rw [show bsonCompare (JVal.jnum (f x)) (JVal.jnum (f last)) = cmpInt (f x) (f last) from rfl,
      show bsonCompare (JVal.jnum (f last)) (JVal.jnum (f x)) = cmpInt (f last) (f x) from rfl,
      show bsonLt (JVal.jnum (f x)) (JVal.jnum (f last)) =
        (cmpInt (f x) (f last) == .lt) from rfl,
      jvalEq_num]
    rcases lt_trichotomy (f x) (f last) with h | h | h
    · rw [(cmpInt_lt_iff _ _).mpr h, (cmpInt_gt_iff _ _).mpr h]
      rfl
    · rw [(cmpInt_eq_iff _ _).mpr h, (cmpInt_eq_iff _ _).mpr h.symm]
      simp only [h, beq_self_eq_true, Bool.true_and, if_neg hca,
        show (Ordering.eq == Ordering.lt) = false from rfl, Bool.false_or]
      exact strict_decide x.createdAt last.createdAt
    · rw [(cmpInt_gt_iff _ _).mpr h, (cmpInt_lt_iff _ _).mpr h]
      have hne : f x ≠ f last := ne_of_gt h
      simp [hne]
      rfl
  · rw [hf x, hf last]
    rw [show bsonCompare (JVal.jstr (f x)) (JVal.jstr (f last)) = cmpStr (f x) (f last) from rfl,
      show bsonCompare (JVal.jstr (f last)) (JVal.jstr (f x)) = cmpStr (f last) (f x) from rfl,
      show bsonLt (JVal.jstr (f x)) (JVal.jstr (f last)) =
        (cmpStr (f x) (f last) == .lt) from rfl,
      jvalEq_str]
    rcases lt_trichotomy (f x) (f last) with h | h | h
    · rw [(cmpStr_lt_iff _ _).mpr h, (cmpStr_gt_iff _ _).mpr h]
      rfl
    · rw [(cmpStr_eq_iff _ _).mpr h, (cmpStr_eq_iff _ _).mpr h.symm]
      simp only [h, beq_self_eq_true, Bool.true_and, if_neg hca,
        show (Ordering.eq == Ordering.lt) = false from rfl, Bool.false_or]
      exact strict_decide x.createdAt last.createdAt
    · rw [(cmpStr_gt_iff _ _).mpr h, (cmpStr_lt_iff _ _).mpr h]
      have hne : f x ≠ f last := ne_of_gt h
      simp [hne]
      rfl
  · exact absurd hisca hca

theorem except_bind_ok {α β ε : Type} (a : α) (k : α → Except ε β) :
    (do let x ← (Except.ok a : Except ε α); k x) = k a := rfl

/-- The item's primary-key value survives the codec: it is a number or a
safe string. -/
def safeItemFor (sb : String) (x : Item) : Bool :=
  match x.get sb with
  | .jnum _ => true
  | .jstr s => safeStr s
  | _ => false

theorem jsDate_dateStr (t : Int) :
    jsDate (.jstr (String.mk (intRepr t))) = some t := by
  show parseIntFull (String.mk (intRepr t)) = some t
  exact parseIntFull_intRepr t

/-- Applying the handler's own `createdAt`-mode token reproduces exactly
the intended cursor condition. -/
theorem applyCursor_own_token_createdAt (so : String) (last : Item) (f : QueryFilter) :
    applyCursor (encodeCursorStr (mkCursorPayload "createdAt" last)) "createdAt" so f =
      .ok { f with createdAtCond := some (so == "desc", some last.createdAt) } := by
  have hpay : mkCursorPayload "createdAt" last =
      [("createdAt", .jdate last.createdAt)] := rfl
  have hval : validPayload [("createdAt", .jdate last.createdAt)] = true := rfl
  have hdec := decode_encode_payload _ hval
  have himg : mapImage [("createdAt", .jdate last.createdAt)] =
      [("createdAt", .jstr (String.mk (intRepr last.createdAt)))] := rfl
  rw [himg] at hdec
  rw [applyCursor, hpay, hdec]
  show createdAtCursorBranch so
    (.jobj [("createdAt", .jstr (String.mk (intRepr last.createdAt)))]) f = _
  rw [createdAtCursorBranch]
  have hprop : getPropE (.jobj [("createdAt", .jstr (String.mk (intRepr last.createdAt)))])
      "createdAt" = .ok (.jstr (String.mk (intRepr last.createdAt))) := rfl
  rw [hprop, except_bind_ok, jsDate_dateStr]

/-- Applying the handler's own token for a non-date `sortBy` (descending)
reproduces exactly the intended cursor disjunction. -/
theorem applyCursor_own_token_nondate (sb : String) (hsb : sb ∈ nonDateFields)
    (last : Item) (hsafe : safeItemFor sb last = true) (f : QueryFilter) :
    applyCursor (encodeCursorStr (mkCursorPayload sb last)) sb "desc" f =
      .ok { f with orClause := some (.cursorCmp sb true (last.get sb) (some last.createdAt)) } := by
  have hne : sb ≠ "createdAt" := by
    intro he
    rw [he] at hsb
    exact absurd hsb (by decide)
  have hksafe : safeStr sb = true := by
    fin_cases hsb <;> rfl
  have hvsafe : serializableVal (last.get sb) = true ∧ jsonImage (last.get sb) = last.get sb := by
    rw [safeItemFor] at hsafe
    cases hget : last.get sb with
    | jnum n => exact ⟨rfl, rfl⟩
    | jstr str =>
        rw [hget] at hsafe
        exact ⟨by simpa [serializableVal] using hsafe, rfl⟩
    | jundef => rw [hget] at hsafe; simp at hsafe
    | jnull => rw [hget] at hsafe; simp at hsafe
    | jdate t => rw [hget] at hsafe; simp at hsafe
    | jbool b => rw [hget] at hsafe; simp at hsafe
    | jobj fs => rw [hget] at hsafe; simp at hsafe
    | jarr vs => rw [hget] at hsafe; simp at hsafe
  have hpay : mkCursorPayload sb last =
      [(sb, last.get sb), ("createdAt", .jdate last.createdAt)] := by
    rw [mkCursorPayload]
    show insertField [(sb, last.get sb)] "createdAt" (.jdate last.createdAt) = _
    rw [insertField, if_neg hne]
    rfl
  have hval : validPayload [(sb, last.get sb), ("createdAt", .jdate last.createdAt)] = true := by
    simp [validPayload, fieldOk, hksafe, hvsafe.1, hne,
      show safeStr "createdAt" = true from rfl,
      show ∀ t : Int, serializableVal (.jdate t) = true from fun t => rfl]
  have hdec := decode_encode_payload _ hval
  have himg : mapImage [(sb, last.get sb), ("createdAt", .jdate last.createdAt)] =
      [(sb, last.get sb), ("createdAt", .jstr (String.mk (intRepr last.createdAt)))] := by
    rw [mapImage]
    simp only [List.map_cons, List.map_nil, hvsafe.2]
    rfl
  rw [himg] at hdec
  have hbca : (sb == "createdAt") = false := by simp [hne]
  have hlook1 : getPropE (.jobj [(sb, last.get sb),
      ("createdAt", .jstr (String.mk (intRepr last.createdAt)))]) sb = .ok (last.get sb) := by
    show Except.ok ((List.lookup sb [(sb, last.get sb),
      ("createdAt", .jstr (String.mk (intRepr last.createdAt)))]).getD .jundef) = _
    rw [List.lookup, show (sb == sb) = true from by simp]
    rfl
  have hlook2 : getPropE (.jobj [(sb, last.get sb),
      ("createdAt", .jstr (String.mk (intRepr last.createdAt)))]) "createdAt" =
      .ok (.jstr (String.mk (intRepr last.createdAt))) := by
    show Except.ok ((List.lookup "createdAt" [(sb, last.get sb),
      ("createdAt", .jstr (String.mk (intRepr last.createdAt)))]).getD .jundef) = _
    rw [List.lookup, show (("createdAt" : String) == sb) = false from by
      simp
      exact fun he => hne he.symm]
    rfl
  rw [applyCursor, hpay, hdec, hbca]
  simp only [Bool.false_eq_true, if_false]
  by_cases hp : sb = "price"
  · rw [if_pos (by simp [hp])]
    rw [priceCursorBranch]
    rw [show ∀ cv : JVal, getPropE cv "price" = getPropE cv sb from fun cv => by rw [hp]]
    rw [hlook1, except_bind_ok, hlook2, except_bind_ok, jsDate_dateStr, hp]
    rfl
  · rw [if_neg (by simp [hp])]
    rw [genericCursorBranch]
    rw [hlook1, except_bind_ok, hlook2, except_bind_ok, jsDate_dateStr]
    rfl

theorem buildFilter_orClause_none (q : Query) (hs : truthy q.search = false) :
    (buildFilter q).orClause = none := by
  by_cases h1 : truthy q.category <;> by_cases h2 : truthy q.status <;>
    by_cases h3 : (truthy q.minPrice || truthy q.maxPrice) = true <;>
    simp [buildFilter, h1, h2, h3, hs]

/-- Adding a cursor `$or` disjunction to a filter whose `$or` slot is free
conjoins it with every active filter predicate. -/
theorem matches_setOr (f : QueryFilter) (ho : f.orClause = none)
    (hc : f.createdAtCond = none) (oc : OrClause) (x : Item) :
    QueryFilter.matches { f with orClause := some oc } x =
      (f.matches x && oc.matches x) := by
  rw [QueryFilter.matches, QueryFilter.matches]
  simp only [ho, hc]
  simp [condMatches, Bool.and_assoc, Bool.and_true]

theorem b64encode_ne_nil (b0 : Nat) (bs : List Nat) : b64encode (b0 :: bs) ≠ [] := by
  match bs with
  | [] => simp [b64encode]
  | [b1] => simp [b64encode]
  | b1 :: b2 :: r => simp [b64encode]

theorem encodeCursorStr_ne_empty (p : List (String × JVal)) : encodeCursorStr p ≠ "" := by
  intro h
  have hdata : b64encode ((stringifyFlat p).map Char.toNat) = [] := congrArg String.data h
  have hshape : stringifyFlat p =
      '{' :: (membersChars (p.filter fun kv => !kv.2.isUndef) ++ ['}']) := rfl
  rw [hshape, List.map_cons] at hdata
  exact b64encode_ne_nil _ _ hdata

/-- The request mode under which the compiled order is a total order with
the `createdAt` tiebreaker and the cursor construction is lossless:
sorting by `createdAt` itself, or descending by a non-date attribute with
no `search` filter (whose `$or` the cursor would overwrite) and
codec-safe key values. -/
def goodMode (ds : List Item) (q : Query) : Prop :=
  q.sortBy = "createdAt" ∨
    (q.sortBy ∈ nonDateFields ∧ q.sortOrder = "desc" ∧ truthy q.search = false ∧
      ∀ x ∈ ds, safeItemFor q.sortBy x = true)

theorem goodMode_hsb {ds : List Item} {q : Query} (h : goodMode ds q) :
    q.sortBy = "createdAt" ∨ q.sortBy ∈ nonDateFields := by
  rcases h with h | h
  · exact Or.inl h
  · exact Or.inr h.1

/-- One cursor step: applying the token generated from `last` compiles a
filter equivalent to the original conjoined with "strictly after `last`
in the compiled order". -/
theorem applyCursor_step (ds : List Item) (q : Query) (last : Item)
    (hmode : goodMode ds q) (hlast : last ∈ ds) :
    ∃ f', applyCursor (encodeCursorStr (mkCursorPayload q.sortBy last))
        q.sortBy q.sortOrder (buildFilter q) = .ok f' ∧
      ∀ x, f'.matches x =
        ((buildFilter q).matches x && strictAfter q.sortBy q.sortOrder last x) := by
  rcases hmode with hca | ⟨hsb, hso, hsearch, hsafe⟩
  · refine ⟨{ buildFilter q with
      createdAtCond := some (q.sortOrder == "desc", some last.createdAt) }, ?_, ?_⟩
    · rw [hca]
      exact applyCursor_own_token_createdAt q.sortOrder last (buildFilter q)
    · intro x
      rw [matches_setCond (buildFilter q) (buildFilter_createdAtCond q) _ x,
        condMatches_strictAfter, hca]
  · refine ⟨{ buildFilter q with
      orClause := some (.cursorCmp q.sortBy true (last.get q.sortBy)
        (some last.createdAt)) }, ?_, ?_⟩
    · rw [hso]
      exact applyCursor_own_token_nondate q.sortBy hsb last (hsafe last hlast) (buildFilter q)
    · intro x
      rw [matches_setOr (buildFilter q) (buildFilter_orClause_none q hsearch)
        (buildFilter_createdAtCond q) _ x, orMatches_strictAfter q.sortBy hsb last x, hso]

/-- The page-assembly tail of `getItems` (lines 104–137) once the filter
`f'` to execute is fixed: over-fetch, truncate, next cursor. -/
def pageFor (q : Query) (f' : QueryFilter) (ds : List Item) : Resp :=
  let items := runQuery f' q.sortBy q.sortOrder (q.limit + 1).toNat ds
  let hasMore : Bool := decide ((items.length : Int) > q.limit)
  let resultItems := if hasMore then items.take q.limit.toNat else items
  let nextCursor : Option String :=
    if hasMore && decide (resultItems.length > 0) then
      match resultItems.getLast? with
      | some last => some (encodeCursorStr (mkCursorPayload q.sortBy last))
      | none => none
    else none
  .page resultItems hasMore nextCursor q.limit resultItems.length

theorem getItems_no_cursor (ds : List Item) (q : Query) (hcur : q.cursor = none) :
    getItems ds q = pageFor q (buildFilter q) ds := by
  rw [getItems, hcur, pageFor]

theorem getItems_with_cursor (ds : List Item) (q : Query) (tok : String) (f' : QueryFilter)
    (htok : tok ≠ "")
    (happ : applyCursor tok q.sortBy q.sortOrder (buildFilter q) = .ok f') :
    getItems ds { q with cursor := some tok } = pageFor q f' ds := by
  rw [getItems]
  simp only [htok, ne_eq, not_false_eq_true, if_true]
  rw [show buildFilter { q with cursor := some tok } = buildFilter q from rfl]
  rw [show ({ q with cursor := some tok } : Query).sortBy = q.sortBy from rfl,
    show ({ q with cursor := some tok } : Query).sortOrder = q.sortOrder from rfl, happ]
  rfl

theorem take_append_cons : ∀ (t : List Item) (x : Item) (r : List Item) (m : Nat),
    (t ++ x :: r).take (t.length + 1 + m) = t ++ x :: r.take m
  | [], x, r, m => by
      rw [List.nil_append, List.nil_append,
        show ([] : List Item).length + 1 + m = m + 1 from by
          rw [List.length_nil]; omega,
        List.take_succ_cons]
  | y :: t, x, r, m => by
      rw [List.cons_append, List.length_cons,
        show t.length + 1 + 1 + m = (t.length + 1 + m) + 1 from by omega,
        List.take_succ_cons, take_append_cons t x r m, List.cons_append]

theorem exists_decomp : ∀ (l : List Item) (k : Nat), k < l.length →
    ∃ t x r, l = t ++ x :: r ∧ t.length = k
  | x :: xs, 0, _ => ⟨[], x, xs, rfl, rfl⟩
  | x :: xs, k+1, h => by
      have h' : k < xs.length := by simp only [List.length_cons] at h; omega
      obtain ⟨t, y, r, hl, ht⟩ := exists_decomp xs k h'
      exact ⟨x :: t, y, r, by rw [List.cons_append, hl], by simp [ht]⟩

theorem filter_and_eq (p q : Item → Bool) : ∀ l : List Item,
    l.filter (fun x => p x && q x) = (l.filter p).filter q
  | [] => rfl
  | x :: xs => by
      cases hp : p x <;> cases hq : q x <;>
        simp [List.filter_cons, hp, hq, filter_and_eq p q xs]

/-- Under pairwise-distinct `createdAt`, the `createdAt` value determines
the item within the dataset. -/
theorem pairwise_key_inj : ∀ (l : List Item),
    l.Pairwise (fun a b => a.createdAt ≠ b.createdAt) →
    ∀ a ∈ l, ∀ b ∈ l, a.createdAt = b.createdAt → a = b
  | [], _, a, ha, _, _, _ => absurd ha (List.not_mem_nil a)
  | x :: xs, hp, a, ha, b, hb, heq => by
      rcases List.mem_cons.mp ha with rfl | ha'
      · rcases List.mem_cons.mp hb with rfl | hb'
        · rfl
        · exact absurd heq ((List.pairwise_cons.mp hp).1 b hb')
      · rcases List.mem_cons.mp hb with rfl | hb'
        · exact absurd heq.symm ((List.pairwise_cons.mp hp).1 a ha')
        · exact pairwise_key_inj xs (List.pairwise_cons.mp hp).2 a ha' b hb' heq

/-- Under a well-behaved mode and pairwise-distinct `createdAt`, the
sorted matching list is strictly ordered by the compiled sort. -/
theorem sorted_matching_strict (ds : List Item) (q : Query)
    (hsb : q.sortBy = "createdAt" ∨ q.sortBy ∈ nonDateFields)
    (hdca : ds.Pairwise (fun a b => a.createdAt ≠ b.createdAt)) :
    (sortWith (sortLe q.sortBy q.sortOrder)
      (ds.filter fun x => (buildFilter q).matches x)).Pairwise
      (fun a b => sortLe q.sortBy q.sortOrder a b = true ∧
        sortLe q.sortBy q.sortOrder b a = false) := by
  have hp1 := sortWith_pairwise (sortLe q.sortBy q.sortOrder)
    (sortLe_total q.sortBy q.sortOrder hsb) (sortLe_trans q.sortBy q.sortOrder hsb)
    (ds.filter fun x => (buildFilter q).matches x)
  have hdl : (ds.filter fun x => (buildFilter q).matches x).Pairwise
      (fun a b => a.createdAt ≠ b.createdAt) :=
    List.Pairwise.sublist (List.filter_sublist ds) hdca
  have hdS := (List.Perm.pairwise_iff (fun {a b} h => Ne.symm h)
    (sortWith_perm (sortLe q.sortBy q.sortOrder)
      (ds.filter fun x => (buildFilter q).matches x))).mpr hdl
  exact (hp1.and hdS).imp (@fun a b hab => ⟨hab.1, by
    cases h2 : sortLe q.sortBy q.sortOrder b a
    · rfl
    · exact absurd (sortLe_antisymm_createdAt q.sortBy q.sortOrder hsb a b hab.1 h2) hab.2⟩)

/-- Requesting the next page with the handler's own token for `last`
executes exactly the query "items strictly after `last`": the fetched rows
are the suffix `l₂` of the sorted matching list, truncated to the over-fetch
bound. -/
theorem getItems_cursor_run (ds : List Item) (q : Query) (last : Item) (l₁ l₂ : List Item)
    (hmode : goodMode ds q)
    (hdca : ds.Pairwise (fun a b => a.createdAt ≠ b.createdAt))
    (hS : sortWith (sortLe q.sortBy q.sortOrder)
        (ds.filter fun x => (buildFilter q).matches x) = l₁ ++ last :: l₂) :
    ∃ f', getItems ds
        { q with cursor := some (encodeCursorStr (mkCursorPayload q.sortBy last)) } =
        pageFor q f' ds ∧
      ∀ n, runQuery f' q.sortBy q.sortOrder n ds = l₂.take n := by
  have hsb := goodMode_hsb hmode
  have hlastS : last ∈ sortWith (sortLe q.sortBy q.sortOrder)
      (ds.filter fun x => (buildFilter q).matches x) := by rw [hS]; simp
  have hlastds : last ∈ ds :=
    List.mem_of_mem_filter ((sortWith_perm _ _).mem_iff.mp hlastS)
  obtain ⟨f', happ, hmat⟩ := applyCursor_step ds q last hmode hlastds
  refine ⟨f', getItems_with_cursor ds q _ f' (encodeCursorStr_ne_empty _) happ, ?_⟩
  intro n
  rw [runQuery]
  have h1 : ds.filter (fun x => f'.matches x) =
      (ds.filter fun x => (buildFilter q).matches x).filter
        (fun x => strictAfter q.sortBy q.sortOrder last x) := by
    rw [List.filter_congr (fun x _ => hmat x)]
    exact filter_and_eq _ _ ds
  rw [h1]
  have hstrict := sorted_matching_strict ds q hsb hdca
  rw [hS] at hstrict
  have hfil : (l₁ ++ last :: l₂).filter
      (fun x => strictAfter q.sortBy q.sortOrder last x) = l₂ :=
    filter_strict_after (sortLe q.sortBy q.sortOrder) l₁ last l₂ hstrict
  have hsorted : sortWith (sortLe q.sortBy q.sortOrder)
      ((ds.filter fun x => (buildFilter q).matches x).filter
        (fun x => strictAfter q.sortBy q.sortOrder last x)) = l₂ := by
    refine sortWith_eq_of_sorted (sortLe q.sortBy q.sortOrder) _ l₂
      (sortLe_total _ _ hsb) (sortLe_trans _ _ hsb) ?_ ?_ ?_
    · have hp : List.Perm ((ds.filter fun x => (buildFilter q).matches x).filter
          (fun x => strictAfter q.sortBy q.sortOrder last x))
          ((sortWith (sortLe q.sortBy q.sortOrder)
            (ds.filter fun x => (buildFilter q).matches x)).filter
            (fun x => strictAfter q.sortBy q.sortOrder last x)) :=
        ((sortWith_perm _ _).symm).filter _
      rw [hS, hfil] at hp
      exact hp
    · have hsub : List.Sublist l₂ (l₁ ++ last :: l₂) :=
        (List.sublist_cons_self last l₂).trans (List.sublist_append_right l₁ (last :: l₂))
      exact (List.Pairwise.sublist hsub hstrict).imp (fun hab => hab.1)
    · intro a b ha hb h1' h2'
      have hamem : a ∈ ds := List.mem_of_mem_filter (List.mem_of_mem_filter ha)
      have hbmem : b ∈ ds := List.mem_of_mem_filter (List.mem_of_mem_filter hb)
      exact pairwise_key_inj ds hdca a hamem b hbmem
        (sortLe_antisymm_createdAt _ _ hsb a b h1' h2')
  rw [hsorted]

/-- Evaluation of the page assembler when the fetched rows are a prefix of
a known list `l₂`: the short case (no more pages) and the over-long case
(truncate, `hasMore`, next token from the last returned item). -/
theorem pageFor_eval (q : Query) (f' : QueryFilter) (ds : List Item) (kn : Nat)
    (l₂ : List Item) (hlimit : q.limit = (kn : Int)) (hkn : 1 ≤ kn)
    (hrun : ∀ n, runQuery f' q.sortBy q.sortOrder n ds = l₂.take n) :
    (l₂.length ≤ kn → pageFor q f' ds = .page l₂ false none q.limit l₂.length) ∧
    (∀ t x r0 r', l₂ = t ++ x :: r0 :: r' → t.length + 1 = kn →
      pageFor q f' ds = .page (t ++ [x]) true
        (some (encodeCursorStr (mkCursorPayload q.sortBy x))) q.limit kn) := by
  have htn : (q.limit + 1).toNat = kn + 1 := by rw [hlimit]; omega
  constructor
  · intro hle
    have htake : l₂.take (kn + 1) = l₂ := List.take_of_length_le (by omega)
    have hmore : (decide ((l₂.length : Int) > q.limit)) = false := by
      rw [hlimit]
      simp only [gt_iff_lt, decide_eq_false_iff_not, not_lt]
      exact_mod_cast hle
    simp only [pageFor, hrun, htn, htake, hmore, Bool.false_and, Bool.false_eq_true,
      if_false]
  · intro t x r0 r' hdec hlen
    subst hdec
    have h1 : (t ++ x :: r0 :: r').take (kn + 1) = t ++ x :: [r0] := by
      rw [show kn + 1 = t.length + 1 + 1 from by omega, take_append_cons]
      simp [List.take_succ_cons]
    have hlen1 : ((t ++ x :: [r0]).length : Int) = (kn : Int) + 1 := by
      simp
      omega
    have hmore : (decide (((t ++ x :: [r0]).length : Int) > q.limit)) = true := by
      rw [hlimit]
      simp only [gt_iff_lt, decide_eq_true_eq, hlen1]
      omega
    have hlt : q.limit.toNat = kn := by rw [hlimit]; omega
    have h2 : (t ++ x :: [r0]).take kn = t ++ [x] := by
      rw [show kn = t.length + 1 + 0 from by omega, take_append_cons]
      rfl
    have hc : (t ++ [x]).length = kn := by
      simp only [List.length_append, List.length_singleton]
      omega
    have hpos : (decide ((t ++ [x]).length > 0)) = true := by
      rw [hc]
      simp only [gt_iff_lt, decide_eq_true_eq]
      omega
    have hknd : (decide (kn > 0)) = true := by
      simp only [gt_iff_lt, decide_eq_true_eq]
      omega
    simp only [pageFor, hrun, htn, h1, hmore, hlt, h2, if_true, Bool.true_and, hpos,
      List.getLast?_concat, hc, hknd]

/-- Chaining pages from the handler's own token for `last` returns exactly
the suffix of the sorted matching list after `last`, given enough fuel. -/
theorem chain_from (ds : List Item) (q : Query) (kn : Nat)
    (hmode : goodMode ds q)
    (hdca : ds.Pairwise (fun a b => a.createdAt ≠ b.createdAt))
    (hlimit : q.limit = (kn : Int)) (hkn : 1 ≤ kn) :
    ∀ (fuel : Nat) (l₁ l₂ : List Item) (last : Item),
    sortWith (sortLe q.sortBy q.sortOrder)
      (ds.filter fun x => (buildFilter q).matches x) = l₁ ++ last :: l₂ →
    l₂.length < fuel →
    chainPages ds q fuel (some (encodeCursorStr (mkCursorPayload q.sortBy last))) = l₂
  | 0, _, _, _, _, hfuel => absurd hfuel (Nat.not_lt_zero _)
  | fuel+1, l₁, l₂, last, hS, hfuel => by
      obtain ⟨f', hgi, hrun⟩ := getItems_cursor_run ds q last l₁ l₂ hmode hdca hS
      have hpe := pageFor_eval q f' ds kn l₂ hlimit hkn hrun
      rw [chainPages]
      by_cases hcase : l₂.length ≤ kn
      · rw [hgi, hpe.1 hcase]
      · push_neg at hcase
        obtain ⟨t, x, r, hdec, ht⟩ := exists_decomp l₂ (kn - 1) (by omega)
        cases r with
        | nil =>
            exfalso
            rw [hdec] at hcase
            simp only [List.length_append, List.length_cons, List.length_nil] at hcase
            omega
        | cons r0 r' =>
            have hkn' : t.length + 1 = kn := by omega
            rw [hgi, hpe.2 t x r0 r' hdec hkn']
            have hlen2 : l₂.length = t.length + 1 + (r0 :: r').length := by
              rw [hdec]
              simp only [List.length_append, List.length_cons]
              omega
            have hS' : sortWith (sortLe q.sortBy q.sortOrder)
                (ds.filter fun y => (buildFilter q).matches y) =
                (l₁ ++ last :: t) ++ x :: (r0 :: r') := by
              rw [hS, hdec]
              simp
            have hrec := chain_from ds q kn hmode hdca hlimit hkn fuel
              (l₁ ++ last :: t) (r0 :: r') x hS'
              (by simp only [List.length_cons] at hlen2 ⊢; omega)
            show (t ++ [x]) ++ chainPages ds q fuel
              (some (encodeCursorStr (mkCursorPayload q.sortBy x))) = l₂
            rw [hrec, hdec]
            simp

/-- Chaining from the first (cursorless) page returns the entire sorted
matching list, given fuel exceeding the dataset size. -/
theorem chain_all (ds : List Item) (q : Query) (kn : Nat)
    (hmode : goodMode ds q)
    (hdca : ds.Pairwise (fun a b => a.createdAt ≠ b.createdAt))
    (hlimit : q.limit = (kn : Int)) (hkn : 1 ≤ kn) :
    ∀ fuel, ds.length < fuel →
    chainPages ds q fuel none =
      sortWith (sortLe q.sortBy q.sortOrder)
        (ds.filter fun x => (buildFilter q).matches x)
  | fuel+1, hf => by
      rw [chainPages]
      have hgi : getItems ds { q with cursor := none } =
          pageFor q (buildFilter q) ds :=
        getItems_no_cursor ds { q with cursor := none } rfl
      have hrun : ∀ n, runQuery (buildFilter q) q.sortBy q.sortOrder n ds =
          (sortWith (sortLe q.sortBy q.sortOrder)
            (ds.filter fun x => (buildFilter q).matches x)).take n := fun n => rfl
      have hpe := pageFor_eval q (buildFilter q) ds kn _ hlimit hkn hrun
      have hSlen : (sortWith (sortLe q.sortBy q.sortOrder)
          (ds.filter fun x => (buildFilter q).matches x)).length ≤ ds.length := by
        rw [(sortWith_perm _ _).length_eq]
        exact List.length_filter_le _ _
      by_cases hcase : (sortWith (sortLe q.sortBy q.sortOrder)
          (ds.filter fun x => (buildFilter q).matches x)).length ≤ kn
      · rw [hgi, hpe.1 hcase]
      · push_neg at hcase
        obtain ⟨t, x, r, hdec, ht⟩ := exists_decomp
          (sortWith (sortLe q.sortBy q.sortOrder)
            (ds.filter fun y => (buildFilter q).matches y)) (kn - 1) (by omega)
        cases r with
        | nil =>
            exfalso
            rw [hdec] at hcase
            simp only [List.length_append, List.length_cons, List.length_nil] at hcase
            omega
        | cons r0 r' =>
            have hkn' : t.length + 1 = kn := by omega
            rw [hgi, hpe.2 t x r0 r' hdec hkn']
            have hlen2 : (sortWith (sortLe q.sortBy q.sortOrder)
                (ds.filter fun y => (buildFilter q).matches y)).length =
                t.length + 1 + (r0 :: r').length := by
              rw [hdec]
              simp only [List.length_append, List.length_cons]
              omega
            have hrec := chain_from ds q kn hmode hdca hlimit hkn fuel t (r0 :: r') x hdec
              (by simp only [List.length_cons] at hlen2 ⊢; omega)
            show (t ++ [x]) ++ chainPages ds q fuel
              (some (encodeCursorStr (mkCursorPayload q.sortBy x))) =
              sortWith (sortLe q.sortBy q.sortOrder)
                (ds.filter fun y => (buildFilter q).matches y)
            rw [hrec, hdec]
            simp

/-! ## Claim C1: pagination round-trip -/

/-- Claim C1 (corrected): over a static dataset with pairwise-distinct
`createdAt` and distinct ids, chaining `nextCursor` pages of size
`limit = kn ≥ 1` yields exactly the id sequence of the unbounded sorted
matching query, with no id repeated — PROVIDED the request is in a
well-behaved mode: `sortBy = 'createdAt'`, or a non-`Date` attribute with
`sortOrder = 'desc'`, no `search` filter, and codec-safe key values.
Outside that mode the property fails (see the counterexample: ascending
order over duplicate sort-key values drops items, because the cursor
disjunction always compares `createdAt` with the ascending comparator
while the compiled secondary sort is `createdAt: -1`). -/
theorem claim_C1_chain_complete (ds : List Item) (q : Query) (kn fuel : Nat)
    (hmode : goodMode ds q)
    (hdca : ds.Pairwise (fun a b => a.createdAt ≠ b.createdAt))
    (hids : (ds.map Item.id).Nodup)
    (hlimit : q.limit = (kn : Int)) (hkn : 1 ≤ kn)
    (hfuel : ds.length < fuel) :
    (chainPages ds q fuel none).map Item.id =
      (sortWith (sortLe q.sortBy q.sortOrder)
        (ds.filter fun x => (buildFilter q).matches x)).map Item.id ∧
    ((chainPages ds q fuel none).map Item.id).Nodup := by
  have h := chain_all ds q kn hmode hdca hlimit hkn fuel hfuel
  refine ⟨by rw [h], ?_⟩
  rw [h]
  have hsub : List.Sublist
      ((ds.filter fun x => (buildFilter q).matches x).map Item.id)
      (ds.map Item.id) := (List.filter_sublist ds).map Item.id
  have hnd : ((ds.filter fun x => (buildFilter q).matches x).map Item.id).Nodup :=
    List.Nodup.sublist hsub hids
  exact (((sortWith_perm _ _).map Item.id).nodup_iff).mpr hnd

/-- Counterexample to C1 as stated for every sort mode: ascending sort by
`price` over two items with equal price and distinct `createdAt` —
chaining returns only the first item, the unbounded query both. -/
theorem claim_C1_counterexample :
    (chainPages
        [⟨1, "a", "", "c", 10, 0, "active", 2, 0⟩, ⟨2, "b", "", "c", 10, 0, "active", 1, 0⟩]
        { limit := 1, sortBy := "price", sortOrder := "asc" } 3 none).map Item.id = [1] ∧
    ((sortWith (sortLe "price" "asc")
        (([⟨1, "a", "", "c", 10, 0, "active", 2, 0⟩,
           ⟨2, "b", "", "c", 10, 0, "active", 1, 0⟩] : List Item).filter
          fun x => (buildFilter
            { limit := 1, sortBy := "price", sortOrder := "asc" }).matches x)).map
        Item.id) = [1, 2] :=
  ⟨rfl, rfl⟩

/-- Witness instantiating `claim_C1_chain_complete` on the spec's
end-to-end example: three items, `limit = 2`, default `createdAt`
descending. -/
theorem claim_C1_chain_complete_witness :
    (goodMode
        [⟨1, "a", "", "c", 5, 0, "active", 1, 0⟩, ⟨2, "b", "", "c", 6, 0, "active", 2, 0⟩,
         ⟨3, "c", "", "c", 7, 0, "active", 3, 0⟩] { limit := 2 } ∧
      ([⟨1, "a", "", "c", 5, 0, "active", 1, 0⟩, ⟨2, "b", "", "c", 6, 0, "active", 2, 0⟩,
        ⟨3, "c", "", "c", 7, 0, "active", 3, 0⟩] : List Item).Pairwise
        (fun a b => a.createdAt ≠ b.createdAt) ∧
      (([⟨1, "a", "", "c", 5, 0, "active", 1, 0⟩, ⟨2, "b", "", "c", 6, 0, "active", 2, 0⟩,
         ⟨3, "c", "", "c", 7, 0, "active", 3, 0⟩] : List Item).map Item.id).Nodup ∧
      ({ limit := 2 } : Query).limit = ((2 : Nat) : Int) ∧ 1 ≤ 2 ∧ 3 < 4) ∧
    ((chainPages
        [⟨1, "a", "", "c", 5, 0, "active", 1, 0⟩, ⟨2, "b", "", "c", 6, 0, "active", 2, 0⟩,
         ⟨3, "c", "", "c", 7, 0, "active", 3, 0⟩] { limit := 2 } 4 none).map Item.id =
      (sortWith (sortLe ({ limit := 2 } : Query).sortBy ({ limit := 2 } : Query).sortOrder)
        (([⟨1, "a", "", "c", 5, 0, "active", 1, 0⟩, ⟨2, "b", "", "c", 6, 0, "active", 2, 0⟩,
           ⟨3, "c", "", "c", 7, 0, "active", 3, 0⟩] : List Item).filter
          fun x => (buildFilter { limit := 2 }).matches x)).map Item.id ∧
      ((chainPages
        [⟨1, "a", "", "c", 5, 0, "active", 1, 0⟩, ⟨2, "b", "", "c", 6, 0, "active", 2, 0⟩,
         ⟨3, "c", "", "c", 7, 0, "active", 3, 0⟩] { limit := 2 } 4 none).map Item.id).Nodup) :=
  ⟨⟨Or.inl rfl, by decide, by decide, rfl, by decide, by decide⟩,
    claim_C1_chain_complete _ { limit := 2 } 2 4 (Or.inl rfl) (by decide) (by decide) rfl
      (by decide) (by decide)⟩

/-! ## Claim C6: over-fetch and `hasMore` -/

/-- Claim C6 (corrected): with `limit = kn ≥ 1` and no cursor, if the
sorted matching list has at most `kn` items the page reports
`hasMore = false` with `nextCursor = null`; if it has `kn + 1` items the
first page reports `hasMore = true` with a cursor, and — in a
well-behaved mode — the page fetched with that cursor reports
`hasMore = false`.  The second-page half needs the mode restriction: with
a `search` filter and `sortBy ≠ 'createdAt'` the cursor overwrites the
search's `$or`, so the second page can report `hasMore = true` (see the
counterexample). -/
theorem claim_C6_overfetch_hasMore (ds : List Item) (q : Query) (kn : Nat)
    (hmode : goodMode ds q)
    (hdca : ds.Pairwise (fun a b => a.createdAt ≠ b.createdAt))
    (hcur : q.cursor = none)
    (hlimit : q.limit = (kn : Int)) (hkn : 1 ≤ kn) :
    ((sortWith (sortLe q.sortBy q.sortOrder)
        (ds.filter fun x => (buildFilter q).matches x)).length ≤ kn →
      getItems ds q =
        .page (sortWith (sortLe q.sortBy q.sortOrder)
            (ds.filter fun x => (buildFilter q).matches x)) false none q.limit
          (sortWith (sortLe q.sortBy q.sortOrder)
            (ds.filter fun x => (buildFilter q).matches x)).length) ∧
    (∀ t x y, sortWith (sortLe q.sortBy q.sortOrder)
        (ds.filter fun z => (buildFilter q).matches z) = t ++ [x, y] →
      t.length + 1 = kn →
      getItems ds q =
        .page (t ++ [x]) true (some (encodeCursorStr (mkCursorPayload q.sortBy x)))
          q.limit kn ∧
      getItems ds
          { q with cursor := some (encodeCursorStr (mkCursorPayload q.sortBy x)) } =
        .page [y] false none q.limit 1) := by
  have hgi : getItems ds q = pageFor q (buildFilter q) ds := getItems_no_cursor ds q hcur
  have hrun : ∀ n, runQuery (buildFilter q) q.sortBy q.sortOrder n ds =
      (sortWith (sortLe q.sortBy q.sortOrder)
        (ds.filter fun x => (buildFilter q).matches x)).take n := fun n => rfl
  have hpe := pageFor_eval q (buildFilter q) ds kn
    (sortWith (sortLe q.sortBy q.sortOrder)
      (ds.filter fun x => (buildFilter q).matches x)) hlimit hkn hrun
  constructor
  · intro hle
    rw [hgi]
    exact hpe.1 hle
  · intro t x y hdec hlen
    refine ⟨by rw [hgi]; exact hpe.2 t x y [] hdec hlen, ?_⟩
    obtain ⟨f', hgi2, hrun2⟩ := getItems_cursor_run ds q x t [y] hmode hdca hdec
    have hpe2 := pageFor_eval q f' ds kn [y] hlimit hkn hrun2
    rw [hgi2, hpe2.1 (by simp only [List.length_singleton]; omega)]
    rfl

/-- Counterexample to the second-page half of C6 as stated universally:
`limit = 1`, `search = "apple"`, `sortBy = price desc`; the matching
dataset has exactly `limit + 1 = 2` items, the first page reports
`hasMore = true`, but the second page also reports `hasMore = true`,
because the cursor's `$or` overwrote the search filter and non-matching
items flow back in. -/
theorem claim_C6_counterexample :
    (([⟨1, "apple a", "", "c", 30, 0, "active", 1, 0⟩,
       ⟨2, "apple b", "", "c", 20, 0, "active", 2, 0⟩,
       ⟨3, "cherry", "", "c", 10, 0, "active", 3, 0⟩,
       ⟨4, "durian", "", "c", 5, 0, "active", 4, 0⟩] : List Item).filter
      fun x => (buildFilter { limit := 1, sortBy := "price", sortOrder := "desc", search := some "apple" }).matches x).length = 1 + 1 ∧
    getItems
      [⟨1, "apple a", "", "c", 30, 0, "active", 1, 0⟩,
       ⟨2, "apple b", "", "c", 20, 0, "active", 2, 0⟩,
       ⟨3, "cherry", "", "c", 10, 0, "active", 3, 0⟩,
       ⟨4, "durian", "", "c", 5, 0, "active", 4, 0⟩]
      { limit := 1, sortBy := "price", sortOrder := "desc", search := some "apple" } =
      .page [⟨1, "apple a", "", "c", 30, 0, "active", 1, 0⟩] true
        (some "eyJwcmljZSI6MzAsImNyZWF0ZWRBdCI6IjEifQ==") 1 1 ∧
    getItems
      [⟨1, "apple a", "", "c", 30, 0, "active", 1, 0⟩,
       ⟨2, "apple b", "", "c", 20, 0, "active", 2, 0⟩,
       ⟨3, "cherry", "", "c", 10, 0, "active", 3, 0⟩,
       ⟨4, "durian", "", "c", 5, 0, "active", 4, 0⟩]
      { limit := 1, sortBy := "price", sortOrder := "desc", search := some "apple", cursor := some "eyJwcmljZSI6MzAsImNyZWF0ZWRBdCI6IjEifQ==" } =
      .page [⟨2, "apple b", "", "c", 20, 0, "active", 2, 0⟩] true
        (some "eyJwcmljZSI6MjAsImNyZWF0ZWRBdCI6IjIifQ==") 1 1 :=
  ⟨rfl, rfl, rfl⟩

/-- Witness instantiating `claim_C6_overfetch_hasMore` on the spec's
end-to-end example: three items with `createdAt` 1 < 2 < 3, `limit = 2`,
default `createdAt` descending sort; the sorted matching list is
`[i3, i2, i1]`, page one is `[i3, i2]` with `hasMore = true`, page two is
`[i1]` with `hasMore = false` and no cursor. -/
theorem claim_C6_overfetch_hasMore_witness :
    (goodMode
        [⟨1, "a", "", "c", 5, 0, "active", 1, 0⟩, ⟨2, "b", "", "c", 6, 0, "active", 2, 0⟩,
         ⟨3, "c", "", "c", 7, 0, "active", 3, 0⟩] { limit := 2 } ∧
      ([⟨1, "a", "", "c", 5, 0, "active", 1, 0⟩, ⟨2, "b", "", "c", 6, 0, "active", 2, 0⟩,
        ⟨3, "c", "", "c", 7, 0, "active", 3, 0⟩] : List Item).Pairwise
        (fun a b => a.createdAt ≠ b.createdAt) ∧
      ({ limit := 2 } : Query).cursor = none ∧
      ({ limit := 2 } : Query).limit = ((2 : Nat) : Int) ∧ 1 ≤ 2) ∧
    (getItems
        [⟨1, "a", "", "c", 5, 0, "active", 1, 0⟩, ⟨2, "b", "", "c", 6, 0, "active", 2, 0⟩,
         ⟨3, "c", "", "c", 7, 0, "active", 3, 0⟩] { limit := 2 } =
      .page [⟨3, "c", "", "c", 7, 0, "active", 3, 0⟩, ⟨2, "b", "", "c", 6, 0, "active", 2, 0⟩]
        true
        (some (encodeCursorStr (mkCursorPayload ({ limit := 2 } : Query).sortBy
          ⟨2, "b", "", "c", 6, 0, "active", 2, 0⟩)))
        ({ limit := 2 } : Query).limit 2 ∧
      getItems
        [⟨1, "a", "", "c", 5, 0, "active", 1, 0⟩, ⟨2, "b", "", "c", 6, 0, "active", 2, 0⟩,
         ⟨3, "c", "", "c", 7, 0, "active", 3, 0⟩]
        { ({ limit := 2 } : Query) with cursor := some (encodeCursorStr (mkCursorPayload
            ({ limit := 2 } : Query).sortBy ⟨2, "b", "", "c", 6, 0, "active", 2, 0⟩)) } =
      .page [⟨1, "a", "", "c", 5, 0, "active", 1, 0⟩] false none
        ({ limit := 2 } : Query).limit 1) :=
  ⟨⟨Or.inl rfl, by decide, rfl, rfl, by decide⟩,
    (claim_C6_overfetch_hasMore _ { limit := 2 } 2 (Or.inl rfl) (by decide) rfl rfl
        (by decide)).2
      [⟨3, "c", "", "c", 7, 0, "active", 3, 0⟩] ⟨2, "b", "", "c", 6, 0, "active", 2, 0⟩
      ⟨1, "a", "", "c", 5, 0, "active", 1, 0⟩ rfl rfl⟩
